import Mathlib

/-!
Verification of the translation and streaming-reconstruction core of the
nootropic reverse-proxy gateway.  The definitions below are a shallow
embedding of the TypeScript sources: `TranslationService`
(translation service, including `safeParseToolArguments` and
`parseMultipleJSONObjects`), `ToolIdMapper`, `StreamingToolCallState`,
`SimpleToolBatcher` and `StreamingToolBatcher`.  JavaScript `Map`s become
association lists with `Map.set` semantics, JavaScript truthiness of
optional strings becomes `truthy`, and `randomBytes` becomes an explicit
oracle argument.  Machine behaviour is modelled as pure state-passing
functions returning the list of emitted events next to the new state.
-/

namespace Nootropic

/-- JavaScript truthiness of an optional string: present and non-empty. -/
def truthy : Option String → Bool
  | none => false
  | some s => !s.isEmpty

/-- The opening-brace character, written via its code point. -/
def braceOpen : Char := Char.ofNat 123

/-- The closing-brace character, written via its code point. -/
def braceClose : Char := Char.ofNat 125

/-! ## JSON values and a strict parser (model of `JSON.parse`) -/

/-- JSON values.  Numeric literals are kept as their source text, which is
all the decoder ever needs. -/
inductive Json where
  | null
  | bool (b : Bool)
  | num (lit : String)
  | str (s : String)
  | arr (elems : List Json)
  | obj (fields : List (String × Json))
deriving Repr

/-- Whitespace accepted by strict JSON parsing. -/
def isJsonWs (c : Char) : Bool :=
  c = ' ' || c = '\t' || c = '\n' || c = '\r'

/-- Drop leading JSON whitespace. -/
def skipWs : List Char → List Char
  | [] => []
  | c :: rest => if isJsonWs c then skipWs rest else c :: rest

/-- Value of a hexadecimal digit. -/
def hexVal (c : Char) : Option Nat :=
  if '0' ≤ c ∧ c ≤ '9' then some (c.toNat - '0'.toNat)
  else if 'a' ≤ c ∧ c ≤ 'f' then some (c.toNat - 'a'.toNat + 10)
  else if 'A' ≤ c ∧ c ≤ 'F' then some (c.toNat - 'A'.toNat + 10)
  else none

/-- Parse the body of a JSON string literal (after the opening quote),
returning the decoded text and the remaining input. -/
def parseStringChars : Nat → List Char → Option (String × List Char)
  | 0, _ => none
  | _, [] => none
  | fuel + 1, c :: rest =>
    if c = '"' then some ("", rest)
    else if c = '\\' then
      match rest with
      | [] => none
      | e :: rest2 =>
        let dec : Option (Char × List Char) :=
          if e = '"' then some ('"', rest2)
          else if e = '\\' then some ('\\', rest2)
          else if e = '/' then some ('/', rest2)
          else if e = 'b' then some (Char.ofNat 8, rest2)
          else if e = 'f' then some (Char.ofNat 12, rest2)
          else if e = 'n' then some ('\n', rest2)
          else if e = 'r' then some ('\r', rest2)
          else if e = 't' then some ('\t', rest2)
          else if e = 'u' then
            match rest2 with
            | h1 :: h2 :: h3 :: h4 :: rest3 =>
              match hexVal h1, hexVal h2, hexVal h3, hexVal h4 with
              | some a, some b, some c2, some d =>
                some (Char.ofNat (((a * 16 + b) * 16 + c2) * 16 + d), rest3)
              | _, _, _, _ => none
            | _ => none
          else none
        match dec with
        | some (ch, r) =>
          (parseStringChars fuel r).map fun p => (String.mk (ch :: p.1.toList), p.2)
        | none => none
    else if c.toNat < 32 then none
    else (parseStringChars fuel rest).map fun p => (String.mk (c :: p.1.toList), p.2)

/-- Take a maximal run of decimal digits. -/
def takeDigits : List Char → (List Char × List Char)
  | [] => ([], [])
  | c :: rest =>
    if c.isDigit then
      let p := takeDigits rest
      (c :: p.1, p.2)
    else ([], c :: rest)

/-- Parse a JSON number literal, returning its text and the rest. -/
def parseNumberLit (cs : List Char) : Option (String × List Char) :=
  let (sign, afterSign) :=
    match cs with
    | '-' :: rest => (['-'], rest)
    | _ => (([] : List Char), cs)
  match afterSign with
  | [] => none
  | c :: rest =>
    if c = '0' then
      let (fracExp, rest2) := parseFracExp rest
      match fracExp with
      | none => none
      | some fe => some (String.mk (sign ++ ['0'] ++ fe), rest2)
    else if c.isDigit then
      let (ds, rest1) := takeDigits rest
      let (fracExp, rest2) := parseFracExp rest1
      match fracExp with
      | none => none
      | some fe => some (String.mk (sign ++ (c :: ds) ++ fe), rest2)
    else none
where
  /-- Parse the optional fraction and exponent parts; `none` means malformed. -/
  parseFracExp (cs : List Char) : Option (List Char) × List Char :=
    let (frac, rest1) :=
      match cs with
      | '.' :: r =>
        let (ds, r2) := takeDigits r
        if ds.isEmpty then (none, cs) else (some ('.' :: ds), r2)
      | _ => (some [], cs)
    match frac with
    | none => (none, rest1)
    | some f =>
      match rest1 with
      | e :: r =>
        if e = 'e' ∨ e = 'E' then
          let (sgn, r2) :=
            match r with
            | s :: r3 => if s = '+' ∨ s = '-' then ([s], r3) else (([] : List Char), r)
            | [] => ([], r)
          let (ds, r4) := takeDigits r2
          if ds.isEmpty then (none, rest1) else (some (f ++ (e :: sgn) ++ ds), r4)
        else (some f, rest1)
      | [] => (some f, rest1)

mutual

/-- Strict JSON value parser with explicit fuel. -/
def parseValue : Nat → List Char → Except String (Json × List Char)
  | 0, _ => .error "JSON input too deeply nested"
  | fuel + 1, cs =>
    match skipWs cs with
    | [] => .error "Unexpected end of JSON input"
    | c :: rest =>
      if c = braceOpen then
        match skipWs rest with
        | c2 :: rest2 =>
          if c2 = braceClose then .ok (.obj [], rest2)
          else
            match parseObjectFields fuel (skipWs rest) with
            | .ok (fields, rest3) => .ok (.obj fields, rest3)
            | .error e => .error e
        | [] => .error "Unexpected end of JSON input"
      else if c = '[' then
        match skipWs rest with
        | c2 :: rest2 =>
          if c2 = ']' then .ok (.arr [], rest2)
          else
            match parseArrayItems fuel (skipWs rest) with
            | .ok (items, rest3) => .ok (.arr items, rest3)
            | .error e => .error e
        | [] => .error "Unexpected end of JSON input"
      else if c = '"' then
        match parseStringChars (rest.length + 1) rest with
        | some (s, rest2) => .ok (.str s, rest2)
        | none => .error "Bad string in JSON"
      else if c = 't' then
        match rest with
        | 'r' :: 'u' :: 'e' :: rest2 => .ok (.bool true, rest2)
        | _ => .error "Unexpected token in JSON"
      else if c = 'f' then
        match rest with
        | 'a' :: 'l' :: 's' :: 'e' :: rest2 => .ok (.bool false, rest2)
        | _ => .error "Unexpected token in JSON"
      else if c = 'n' then
        match rest with
        | 'u' :: 'l' :: 'l' :: rest2 => .ok (.null, rest2)
        | _ => .error "Unexpected token in JSON"
      else
        match parseNumberLit (c :: rest) with
        | some (lit, rest2) => .ok (.num lit, rest2)
        | none => .error "Unexpected token in JSON"

/-- Parse the comma-separated items of a non-empty JSON array. -/
def parseArrayItems : Nat → List Char → Except String (List Json × List Char)
  | 0, _ => .error "JSON input too deeply nested"
  | fuel + 1, cs =>
    match parseValue fuel cs with
    | .error e => .error e
    | .ok (v, rest) =>
      match skipWs rest with
      | ',' :: rest2 =>
        match parseArrayItems fuel rest2 with
        | .ok (items, rest3) => .ok (v :: items, rest3)
        | .error e => .error e
      | ']' :: rest2 => .ok ([v], rest2)
      | _ => .error "Expected comma or bracket in JSON array"

/-- Parse the comma-separated fields of a non-empty JSON object. -/
def parseObjectFields : Nat → List Char → Except String (List (String × Json) × List Char)
  | 0, _ => .error "JSON input too deeply nested"
  | fuel + 1, cs =>
    match skipWs cs with
    | '"' :: rest =>
      match parseStringChars (rest.length + 1) rest with
      | none => .error "Bad string in JSON"
      | some (key, rest2) =>
        match skipWs rest2 with
        | ':' :: rest3 =>
          match parseValue fuel rest3 with
          | .error e => .error e
          | .ok (v, rest4) =>
            match skipWs rest4 with
            | ',' :: rest5 =>
              match parseObjectFields fuel rest5 with
              | .ok (fields, rest6) => .ok ((key, v) :: fields, rest6)
              | .error e => .error e
            | c :: rest5 =>
              if c = braceClose then .ok ([(key, v)], rest5)
              else .error "Expected comma or closing brace in JSON object"
            | [] => .error "Unexpected end of JSON input"
        | _ => .error "Expected colon in JSON object"
    | _ => .error "Expected property name in JSON object"

end

/-- Model of strict `JSON.parse`: the whole input must be one JSON value,
up to surrounding whitespace. -/
def jsonParse (s : String) : Except String Json :=
  let cs := s.toList
  match parseValue (2 * cs.length + 4) cs with
  | .error e => .error e
  | .ok (v, rest) =>
    if skipWs rest = [] then .ok v
    else .error "Unexpected non-whitespace character after JSON"

/-! ## `TranslationService.parseMultipleJSONObjects` and `safeParseToolArguments` -/

/-- Whitespace stripped by JavaScript `String.trim` (the characters that
can occur in upstream tool-argument text). -/
def isJsWs (c : Char) : Bool :=
  c = ' ' || c = '\t' || c = '\n' || c = '\r' || c = Char.ofNat 11 || c = Char.ofNat 12 ||
    c = Char.ofNat 160 || c = Char.ofNat 65279

/-- Model of JavaScript `String.trim`. -/
def jsTrim (s : String) : String :=
  String.mk (((s.toList.dropWhile isJsWs).reverse.dropWhile isJsWs).reverse)

/-- The character-by-character fallback scan of `parseMultipleJSONObjects`:
tracks brace depth, string-literal and escape state, and strict-parses each
brace-balanced slice.  A parse failure of a slice propagates as an error,
mirroring the exception thrown by `JSON.parse` inside the loop. -/
def scanLoop (all : List Char) :
    List Char → Nat → Int → Nat → Bool → Bool → List Json → Except String (List Json)
  | [], _, _, _, _, _, objects => .ok objects
  | c :: rest, i, brace, start, inString, escapeNext, objects =>
    if escapeNext then
      scanLoop all rest (i + 1) brace start inString false objects
    else if c = '\\' then
      scanLoop all rest (i + 1) brace start inString true objects
    else if c = '"' then
      scanLoop all rest (i + 1) brace start (!inString) false objects
    else if !inString && c = braceOpen then
      scanLoop all rest (i + 1) (brace + 1) start inString false objects
    else if !inString && c = braceClose then
      let brace2 := brace - 1
      if brace2 = 0 then
        let objStr := jsTrim (String.mk ((all.drop start).take (i + 1 - start)))
        if objStr.isEmpty then
          scanLoop all rest (i + 1) brace2 (i + 1) inString false objects
        else
          match jsonParse objStr with
          | .ok v => scanLoop all rest (i + 1) brace2 (i + 1) inString false (objects ++ [v])
          | .error e => .error e
      else
        scanLoop all rest (i + 1) brace2 start inString false objects
    else
      scanLoop all rest (i + 1) brace start inString false objects

/-- The list of objects collected by the fallback scan (the `objects` array
of the source), or the error thrown while strict-parsing a slice. -/
def scanCompleteObjects (s : String) : Except String (List Json) :=
  scanLoop s.toList s.toList 0 0 0 false false []

/-- Model of `TranslationService.parseMultipleJSONObjects`: a single collected object
is returned directly, otherwise the collected list itself is returned. -/
def parseMultipleJSONObjects (s : String) : Except String Json :=
  (scanCompleteObjects s).map fun objs =>
    match objs with
    | [o] => o
    | _ => .arr objs

/-- The sentinel payload returned when every parsing strategy fails: it
carries the raw argument text and the original strict-parse error. -/
def sentinelPayload (s e : String) : Json :=
  .obj [("raw_arguments", .str s), ("parse_error", .str e)]

/-- Model of `TranslationService.safeParseToolArguments`: strict parse first, then the
multi-object fallback, then the sentinel payload. -/
def safeParseToolArguments (s : String) : Json :=
  match jsonParse s with
  | .ok v => v
  | .error e =>
    match parseMultipleJSONObjects s with
    | .ok v => v
    | .error _ => sentinelPayload s e

/-- Whether a value has the sentinel shape the spec describes: an object with
both a raw_arguments field and a parse_error field. -/
def isSentinelPayload : Json → Bool
  | .obj fields =>
    (fields.any fun f => f.1 = "raw_arguments") && (fields.any fun f => f.1 = "parse_error")
  | _ => false

/-! ## `ToolIdMapper`

Embeds `src/services/tool-id-mapper.ts`.  The two JavaScript `Map`s become
association lists with `Map.set` semantics (`mapSet`), and `randomBytes`
becomes an oracle `uuidFor : String → String` giving the hex string drawn
while processing a given local id (each id triggers at most one generation
per session, so an id-indexed oracle is faithful). -/

/-- JavaScript `Map.set`: replace the value in place if the key is present,
otherwise append the entry. -/
def mapSet {α β : Type} [DecidableEq α] (m : List (α × β)) (k : α) (v : β) : List (α × β) :=
  match m with
  | [] => [(k, v)]
  | (k', v') :: rest => if k' = k then (k, v) :: rest else (k', v') :: mapSet rest k v

/-- JavaScript `Map.get`. -/
def mapGet {α β : Type} [DecidableEq α] (m : List (α × β)) (k : α) : Option β :=
  match m with
  | [] => none
  | (k', v) :: rest => if k' = k then some v else mapGet rest k

/-- The two id-correlation maps of `ToolIdMapper`. -/
structure ToolIdMapper where
  anthropicToOpenAI : List (String × String)
  openAIToAnthropic : List (String × String)
deriving Repr

/-- A fresh mapper, as constructed for a new session. -/
def ToolIdMapper.empty : ToolIdMapper := ⟨[], []⟩

/-- Model of `ToolIdMapper.mapIds`: store the pair in both maps (overwriting any
entry already present under either key). -/
def ToolIdMapper.mapIds (m : ToolIdMapper) (anthropicId openAIId : String) : ToolIdMapper :=
  { anthropicToOpenAI := mapSet m.anthropicToOpenAI anthropicId openAIId
    openAIToAnthropic := mapSet m.openAIToAnthropic openAIId anthropicId }

/-- Model of `ToolIdMapper.getOpenAIId`. -/
def ToolIdMapper.getOpenAIId (m : ToolIdMapper) (anthropicId : String) : Option String :=
  mapGet m.anthropicToOpenAI anthropicId

/-- Model of `ToolIdMapper.getAnthropicId`. -/
def ToolIdMapper.getAnthropicId (m : ToolIdMapper) (openAIId : String) : Option String :=
  mapGet m.openAIToAnthropic openAIId

/-- Model of `ToolIdMapper.mapOpenAIId` (the resolve direction): reverse lookup,
falling back to the input itself on a miss. -/
def ToolIdMapper.mapOpenAIId (m : ToolIdMapper) (openAIId : String) : String :=
  (m.getAnthropicId openAIId).getD openAIId

/-- The unanchored search of the regular expression
`functions\.([^:]+):?(\d*)` used by `generateOpenAICompatibleId`: finds the
leftmost occurrence of the literal `functions.` followed by at least one
non-colon character, and returns the maximal non-colon run together with
the digit run after an optional colon. -/
def funcIdMatch : List Char → Option (String × String)
  | [] => none
  | c :: rest =>
    let pref := "functions.".toList
    if pref.isPrefixOf (c :: rest) then
      let after := (c :: rest).drop pref.length
      match after with
      | [] => funcIdMatch rest
      | a :: _ =>
        if a = ':' then funcIdMatch rest
        else
          let g1 := after.takeWhile (· ≠ ':')
          let after1 := after.drop g1.length
          let after2 := match after1 with
            | ':' :: r => r
            | other => other
          let g2 := after2.takeWhile Char.isDigit
          some (String.mk g1, String.mk g2)
    else funcIdMatch rest

/-- Replace every character outside `[a-zA-Z0-9_]` with an underscore. -/
def sanitizeId (s : String) : String :=
  String.mk (s.toList.map fun c => if c.isAlphanum || c = '_' then c else '_')

/-- Split a character list at every colon (JavaScript `split(':')`). -/
def splitOnColon : List Char → List String
  | [] => [""]
  | c :: rest =>
    if c = ':' then "" :: splitOnColon rest
    else
      match splitOnColon rest with
      | [] => [String.mk [c]]
      | seg :: segs => String.mk (c :: seg.toList) :: segs

/-- Model of `ToolIdMapper.generateOpenAICompatibleId`: deterministically derive an
OpenAI-style id from a local id, falling back to a sanitised form with a
random suffix (`uuid`, the oracle value) when no known pattern applies. -/
def generateOpenAICompatibleId (uuid : String) (anthropicId : String) : String :=
  let funcPart : Option String :=
    if "functions.".toList.isPrefixOf anthropicId.toList then
      (funcIdMatch anthropicId.toList).map fun p =>
        "call_func_" ++ p.1 ++ "_" ++ (if p.2.isEmpty then "0" else p.2)
    else none
  match funcPart with
  | some r => r
  | none =>
    if anthropicId.toList.contains ':' then
      let parts := splitOnColon anthropicId.toList
      let toolName := parts.headD ""
      let idx := (parts.drop 1).headD ""
      "call_" ++ toolName ++ "_" ++ (if idx.isEmpty then "0" else idx)
    else if !anthropicId.isEmpty && anthropicId.toList.all Char.isDigit then
      "call_tool_" ++ anthropicId
    else if "toolu_".toList.isPrefixOf anthropicId.toList then
      "call_" ++ anthropicId
    else
      "call_" ++ sanitizeId anthropicId ++ "_" ++ uuid

/-- Model of `ToolIdMapper.getOrCreateOpenAIId` (the correlate direction): return the
existing mapping, or derive a provider id and record the bijection.
Returns the provider id, the `wasFound` flag, and the updated mapper. -/
def getOrCreateOpenAIId (uuidFor : String → String) (m : ToolIdMapper)
    (anthropicId : String) : String × Bool × ToolIdMapper :=
  match m.getOpenAIId anthropicId with
  | some existing => (existing, true, m)
  | none =>
    let generatedId := generateOpenAICompatibleId (uuidFor anthropicId) anthropicId
    (generatedId, false, m.mapIds anthropicId generatedId)

/-- Run a sequence of correlate calls (`getOrCreateOpenAIId`, state part). -/
def runCorrelates (uuidFor : String → String) (m : ToolIdMapper) :
    List String → ToolIdMapper
  | [] => m
  | a :: rest => runCorrelates uuidFor (getOrCreateOpenAIId uuidFor m a).2.2 rest

/-- One mutating `ToolIdMapper` operation, for the bijection claim.
`mapAnthropicIdOp` covers `mapAnthropicId` with its random
`generateOpenAIId` result modelled by the oracle. -/
inductive MapperOp where
  | mapIdsOp (anthropicId openAIId : String)
  | mapAnthropicIdOp (anthropicId : String)
  | getOrCreateOp (anthropicId : String)
deriving Repr

/-- State transition of one `ToolIdMapper` operation. -/
def stepOp (uuidFor : String → String) (m : ToolIdMapper) : MapperOp → ToolIdMapper
  | .mapIdsOp a o => m.mapIds a o
  | .mapAnthropicIdOp a =>
    match m.getOpenAIId a with
    | some _ => m
    | none => m.mapIds a ("call_" ++ uuidFor a)
  | .getOrCreateOp a => (getOrCreateOpenAIId uuidFor m a).2.2

/-- Run a sequence of `ToolIdMapper` operations. -/
def runOps (uuidFor : String → String) (m : ToolIdMapper) : List MapperOp → ToolIdMapper
  | [] => m
  | op :: ops => runOps uuidFor (stepOp uuidFor m op) ops

/-- The spec's strict-bijection property of the correlation table: the
forward and reverse lookups are mutual inverses, with no stale entries. -/
def IsBijection (m : ToolIdMapper) : Prop :=
  ∀ a o, m.getOpenAIId a = some o ↔ m.getAnthropicId o = some a

/-- An operation is conflict-free in a given state: it never re-maps an
already-mapped local or provider id to a different partner. -/
def opCompat (uuidFor : String → String) (m : ToolIdMapper) : MapperOp → Prop
  | .mapIdsOp a o =>
    (m.getOpenAIId a = none ∨ m.getOpenAIId a = some o) ∧
      (m.getAnthropicId o = none ∨ m.getAnthropicId o = some a)
  | .mapAnthropicIdOp a =>
    m.getOpenAIId a ≠ none ∨ m.getAnthropicId ("call_" ++ uuidFor a) = none
  | .getOrCreateOp a =>
    m.getOpenAIId a ≠ none ∨
      m.getAnthropicId (generateOpenAICompatibleId (uuidFor a) a) = none

/-- Every operation of the sequence is conflict-free when it executes. -/
def CompatRun (uuidFor : String → String) : ToolIdMapper → List MapperOp → Prop
  | _, [] => True
  | m, op :: ops => opCompat uuidFor m op ∧ CompatRun uuidFor (stepOp uuidFor m op) ops

/-! ## `StreamingToolCallState`

Embeds `src/services/streaming-tool-state.ts`.  A chunk is flattened to the
fields the machine reads (`choices[0].delta`, `choices[0].finish_reason`,
`usage`); the per-index tool-call map keeps JavaScript `Map` insertion
order. -/

/-- A usage counter pair. -/
structure Usage where
  input_tokens : Nat
  output_tokens : Nat
deriving Repr, DecidableEq

/-- The usage object of an upstream chunk; each field may be absent. -/
structure OAIUsage where
  prompt_tokens : Option Nat
  completion_tokens : Option Nat
deriving Repr, DecidableEq

/-- One tool-call fragment of a chunk's delta. -/
structure ToolCallDelta where
  index : Option Nat
  id : Option String
  fname : Option String
  fargs : Option String
deriving Repr, DecidableEq

/-- An upstream streaming chunk, flattened to `choices[0]`. -/
structure Chunk where
  id : String
  role : Option String
  content : Option String
  tool_calls : Option (List ToolCallDelta)
  finish_reason : Option String
  usage : Option OAIUsage
deriving Repr, DecidableEq

/-- A chunk with every field absent. -/
def Chunk.emptyChunk : Chunk :=
  { id := "", role := none, content := none, tool_calls := none
    finish_reason := none, usage := none }

/-- Model of `AccumulatingToolCall`: per-index accumulation state. -/
structure AccToolCall where
  index : Nat
  tcId : Option String
  name : Option String
  args : String
  hasStartedStreaming : Bool
  isComplete : Bool
deriving Repr, DecidableEq

/-- The tool-use / text payload of a `content_block_start`. -/
inductive BlockInfo where
  | text
  | tool_use (id name : String)
deriving Repr, DecidableEq

/-- The payload of a `content_block_delta`. -/
inductive DeltaInfo where
  | text_delta (s : String)
  | input_json_delta (partial_json : String)
deriving Repr, DecidableEq

/-- The Anthropic streaming events the machine emits. -/
inductive Ev where
  | message_start (id model : String) (usage : Usage)
  | content_block_start (index : Nat) (block : BlockInfo)
  | content_block_delta (index : Nat) (delta : DeltaInfo)
  | content_block_stop (index : Nat)
  | message_delta (stop_reason : String) (usage : Usage)
  | message_stop
deriving Repr, DecidableEq

/-- The session state of `StreamingToolCallState`. -/
structure SState where
  toolCalls : List (Nat × AccToolCall)
  hasEmittedMessageStart : Bool
  actualUsage : Option Usage
  requestModel : String
  estimatedInputTokens : Nat
  hasEmittedContentBlockStart : Bool
  contentBlockIndex : Nat
deriving Repr, DecidableEq

/-- A fresh session state, as the constructor leaves it. -/
def SState.init (requestModel : String) (estimatedInputTokens : Nat) : SState :=
  { toolCalls := []
    hasEmittedMessageStart := false
    actualUsage := none
    requestModel := requestModel
    estimatedInputTokens := estimatedInputTokens
    hasEmittedContentBlockStart := false
    contentBlockIndex := 0 }

/-- Model of `StreamingToolCallState.translateFinishReason`. -/
def translateFinishReason (reason : String) : String :=
  if reason = "stop" then "end_turn"
  else if reason = "length" then "max_tokens"
  else if reason = "tool_calls" then "tool_use"
  else "end_turn"

/-- Model of `StreamingToolCallState.processToolCallDelta`: accumulate one tool-call
fragment and emit the start / partial-json events it triggers. -/
def processToolCallDelta (st : SState) (tc : ToolCallDelta) (chunkId : String) :
    List Ev × SState :=
  let idx := tc.index.getD 0
  let acc0 := (mapGet st.toolCalls idx).getD
    { index := idx, tcId := none, name := none, args := ""
      hasStartedStreaming := false, isComplete := false }
  let acc1 :=
    { acc0 with
      tcId := if truthy tc.id then tc.id else acc0.tcId
      name := if truthy tc.fname then tc.fname else acc0.name
      args := acc0.args ++ (if truthy tc.fargs then tc.fargs.getD "" else "") }
  let adj := if st.hasEmittedContentBlockStart then 1 else 0
  let willStart := !acc1.hasStartedStreaming && truthy acc1.name && truthy acc1.tcId
  let startEvs :=
    if willStart then
      [Ev.content_block_start (idx + adj)
        (.tool_use ("toolu_stream_" ++ chunkId ++ "_" ++ toString idx)
          (acc1.name.getD ""))]
    else []
  let acc2 := if willStart then { acc1 with hasStartedStreaming := true } else acc1
  let deltaEvs :=
    if acc2.hasStartedStreaming && truthy tc.fargs then
      [Ev.content_block_delta (idx + adj) (.input_json_delta (tc.fargs.getD ""))]
    else []
  (startEvs ++ deltaEvs, { st with toolCalls := mapSet st.toolCalls idx acc2 })

/-- Fold `processToolCallDelta` over the fragments of one chunk. -/
def processToolCallDeltas (st : SState) (tcs : List ToolCallDelta) (chunkId : String) :
    List Ev × SState :=
  match tcs with
  | [] => ([], st)
  | tc :: rest =>
    ((processToolCallDelta st tc chunkId).1 ++
        (processToolCallDeltas (processToolCallDelta st tc chunkId).2 rest chunkId).1,
      (processToolCallDeltas (processToolCallDelta st tc chunkId).2 rest chunkId).2)

/-- The `content_block_stop` events that `handleCompletion` emits for the
started-but-incomplete tool calls, together with the updated map. -/
def completeToolCalls (adj : Nat) : List (Nat × AccToolCall) →
    List Ev × List (Nat × AccToolCall)
  | [] => ([], [])
  | (idx, acc) :: rest =>
    let fire := acc.hasStartedStreaming && !acc.isComplete
    let evs := if fire then [Ev.content_block_stop (idx + adj)] else []
    let acc' := if fire then { acc with isComplete := true } else acc
    (evs ++ (completeToolCalls adj rest).1, (idx, acc') :: (completeToolCalls adj rest).2)

/-- Model of `StreamingToolCallState.handleCompletion`: close the text block and the
active tool calls, then emit the final `message_delta` and `message_stop`. -/
def handleCompletion (st : SState) (finishReason : Option String) : List Ev × SState :=
  let textStop :=
    if st.hasEmittedContentBlockStart then [Ev.content_block_stop st.contentBlockIndex]
    else []
  let adj := if st.hasEmittedContentBlockStart then 1 else 0
  let toolStops := (completeToolCalls adj st.toolCalls).1
  let toolCalls' := (completeToolCalls adj st.toolCalls).2
  let stopReason :=
    if truthy finishReason then translateFinishReason (finishReason.getD "")
    else "end_turn"
  let finalUsage := st.actualUsage.getD ⟨st.estimatedInputTokens, 0⟩
  (textStop ++ toolStops ++ [Ev.message_delta stopReason finalUsage, Ev.message_stop],
    { st with toolCalls := toolCalls' })

/-- Model of `StreamingToolCallState.processChunk`: the per-chunk step of the machine.
Note the order of the source: message start, text content, tool-call
fragments, completion, and only then the recording of authoritative usage. -/
def processChunk (st : SState) (c : Chunk) : List Ev × SState :=
  let emitStart := !st.hasEmittedMessageStart && truthy c.role
  let msEvs :=
    if emitStart then
      [Ev.message_start c.id st.requestModel ⟨st.estimatedInputTokens, 0⟩]
    else []
  let st1 := if emitStart then { st with hasEmittedMessageStart := true } else st
  let txtEvs :=
    if truthy c.content then
      (if !st1.hasEmittedContentBlockStart then
        [Ev.content_block_start st1.contentBlockIndex .text]
      else []) ++
        [Ev.content_block_delta st1.contentBlockIndex (.text_delta (c.content.getD ""))]
    else []
  let st2 :=
    if truthy c.content then { st1 with hasEmittedContentBlockStart := true } else st1
  let tcEvs := (processToolCallDeltas st2 (c.tool_calls.getD []) c.id).1
  let st3 := (processToolCallDeltas st2 (c.tool_calls.getD []) c.id).2
  let finEvs :=
    if truthy c.finish_reason then (handleCompletion st3 c.finish_reason).1 else []
  let st4 :=
    if truthy c.finish_reason then (handleCompletion st3 c.finish_reason).2 else st3
  let st5 :=
    match c.usage with
    | some u =>
      { st4 with actualUsage := some ⟨u.prompt_tokens.getD 0, u.completion_tokens.getD 0⟩ }
    | none => st4
  (msEvs ++ txtEvs ++ tcEvs ++ finEvs, st5)

/-- Run the machine over a delivered chunk sequence, concatenating the
emitted events in order. -/
def runChunks (st : SState) : List Chunk → List Ev × SState
  | [] => ([], st)
  | c :: rest =>
    ((processChunk st c).1 ++ (runChunks (processChunk st c).2 rest).1,
      (runChunks (processChunk st c).2 rest).2)

/-- Whether an event is a `content_block_start` at a given output index. -/
def Ev.isStartAt (k : Nat) : Ev → Bool
  | .content_block_start i _ => i = k
  | _ => false

/-- Whether an event is a `content_block_stop` at a given output index. -/
def Ev.isStopAt (k : Nat) : Ev → Bool
  | .content_block_stop i => i = k
  | _ => false

/-- Whether an event is a `content_block_delta` of the partial-json kind. -/
def Ev.isJsonDelta : Ev → Bool
  | .content_block_delta _ (.input_json_delta _) => true
  | _ => false

/-- The partial-json text of an event, empty for other events. -/
def Ev.jsonDeltaText : Ev → String
  | .content_block_delta _ (.input_json_delta s) => s
  | _ => ""

/-- Whether an event is the terminal `message_stop`. -/
def Ev.isMessageStop : Ev → Bool
  | .message_stop => true
  | _ => false

/-- Whether an event is a `message_delta`, the only event carrying the final
usage. -/
def Ev.isMessageDelta : Ev → Bool
  | .message_delta _ _ => true
  | _ => false

/-- The usage carried by a `message_delta`; zero elsewhere. -/
def Ev.messageDeltaUsage : Ev → Usage
  | .message_delta _ u => u
  | _ => ⟨0, 0⟩

/-! ## `TranslationService` request translation

Embeds the outbound direction of `TranslationService` (`anthropicToOpenAI`,
`translateSystemContent`, `translateAnthropicMessage`,
`translateAnthropicTools`, `translateAnthropicToolChoice`).  Tool-result
bodies are modelled in their already-serialised string form. -/

/-- Serialise one character of a JSON string literal. -/
def jsonEscapeChar (c : Char) : List Char :=
  if c = '"' then ['\\', '"']
  else if c = '\\' then ['\\', '\\']
  else if c = '\n' then ['\\', 'n']
  else if c = '\r' then ['\\', 'r']
  else if c = '\t' then ['\\', 't']
  else if c = Char.ofNat 8 then ['\\', 'b']
  else if c = Char.ofNat 12 then ['\\', 'f']
  else if c.toNat < 32 then
    let hx := fun (n : Nat) => (Nat.toDigits 16 n).headD '0'
    ['\\', 'u', '0', '0', hx (c.toNat / 16), hx (c.toNat % 16)]
  else [c]

/-- Serialise a JSON string literal. -/
def jsonEscape (s : String) : String :=
  "\"" ++ String.mk (s.toList.flatMap jsonEscapeChar) ++ "\""

mutual

/-- Model of `JSON.stringify` on decoded values. -/
def jsonStringify : Json → String
  | .null => "null"
  | .bool true => "true"
  | .bool false => "false"
  | .num lit => lit
  | .str s => jsonEscape s
  | .arr xs => "[" ++ stringifyElems xs ++ "]"
  | .obj fs =>
    String.singleton braceOpen ++ stringifyFields fs ++ String.singleton braceClose

/-- Comma-separated serialisation of array elements. -/
def stringifyElems : List Json → String
  | [] => ""
  | [x] => jsonStringify x
  | x :: rest => jsonStringify x ++ "," ++ stringifyElems rest

/-- Comma-separated serialisation of object fields. -/
def stringifyFields : List (String × Json) → String
  | [] => ""
  | [(k, v)] => jsonEscape k ++ ":" ++ jsonStringify v
  | (k, v) :: rest => jsonEscape k ++ ":" ++ jsonStringify v ++ "," ++ stringifyFields rest

end

/-- An image source block (`source.type`, `source.media_type`, `source.data`). -/
structure ImgSource where
  stype : String
  mediaType : String
  data : String
deriving Repr, DecidableEq

/-- Anthropic content blocks of a turn. -/
inductive ABlock where
  | text (t : String)
  | image (source : ImgSource)
  | tool_use (id name : String) (input : Json)
  | tool_result (tool_use_id : String) (content : String) (is_error : Bool)
deriving Repr

/-- The content of an Anthropic message: a plain string or block list. -/
inductive AContent where
  | str (s : String)
  | blocks (bs : List ABlock)
deriving Repr

/-- The role of an Anthropic message. -/
inductive ARole where
  | user
  | assistant
deriving Repr, DecidableEq

/-- An Anthropic message. -/
structure AMsg where
  role : ARole
  content : AContent
deriving Repr

/-- An OpenAI content part of a user message. -/
inductive OAIPart where
  | text (t : String)
  | image_url (url : String)
deriving Repr, DecidableEq

/-- An outbound OpenAI tool call attached to an assistant message. -/
structure OAIToolCall where
  id : String
  name : String
  arguments : String
deriving Repr, DecidableEq

/-- An outbound OpenAI chat message. -/
inductive OutMsg where
  | systemMsg (content : String)
  | userStr (s : String)
  | userParts (parts : List OAIPart)
  | assistantMsg (content : Option String) (tool_calls : List OAIToolCall)
  | toolMsg (tool_call_id : String) (content : String)
deriving Repr, DecidableEq

/-- The role string of an outbound message, as the batcher reads it. -/
def OutMsg.role : OutMsg → String
  | .systemMsg _ => "system"
  | .userStr _ => "user"
  | .userParts _ => "user"
  | .assistantMsg _ _ => "assistant"
  | .toolMsg _ _ => "tool"

/-- The single pass of `translateAnthropicMessage` over the content blocks,
partitioning them into text/image parts, tool-use blocks and tool-result
blocks, in order. -/
def splitBlocks : List ABlock → List OAIPart × List (String × String × Json) ×
    List (String × String)
  | [] => ([], [], [])
  | b :: rest =>
    match b with
    | .text t =>
      (.text t :: (splitBlocks rest).1, (splitBlocks rest).2.1, (splitBlocks rest).2.2)
    | .image src =>
      if src.stype = "base64" then
        (.image_url ("data:" ++ src.mediaType ++ ";base64," ++ src.data) ::
            (splitBlocks rest).1,
          (splitBlocks rest).2.1, (splitBlocks rest).2.2)
      else splitBlocks rest
    | .tool_use i n inp =>
      ((splitBlocks rest).1, (i, n, inp) :: (splitBlocks rest).2.1, (splitBlocks rest).2.2)
    | .tool_result tid c _ =>
      ((splitBlocks rest).1, (splitBlocks rest).2.1, (tid, c) :: (splitBlocks rest).2.2)

/-- Model of `TranslationService.translateAnthropicMessage`: translate one Anthropic
message into the outbound message(s) it produces. -/
def translateAnthropicMessage (message : AMsg) : List OutMsg :=
  match message.content with
  | .str s =>
    match message.role with
    | .assistant => [.assistantMsg (some s) []]
    | .user => [.userStr s]
  | .blocks bs =>
    let textAndImageContent := (splitBlocks bs).1
    let toolUseBlocks := (splitBlocks bs).2.1
    let toolResultBlocks := (splitBlocks bs).2.2
    match message.role with
    | .assistant =>
      let textContent := String.intercalate "\n"
        (textAndImageContent.filterMap fun p =>
          match p with
          | .text t => some t
          | .image_url _ => none)
      let toolCalls := toolUseBlocks.map fun u =>
        OAIToolCall.mk u.1 u.2.1 (jsonStringify u.2.2)
      if !toolCalls.isEmpty then
        [.assistantMsg (if textContent.isEmpty then none else some textContent) toolCalls]
      else
        [.assistantMsg (some textContent) []]
    | .user =>
      (if !textAndImageContent.isEmpty then
        [match textAndImageContent with
          | [.text t] => .userStr t
          | parts => .userParts parts]
      else []) ++
        toolResultBlocks.map fun r => OutMsg.toolMsg r.1 r.2

/-- The system content of a request: a plain string or text-block list. -/
inductive SysContent where
  | str (s : String)
  | parts (bs : List ABlock)
deriving Repr

/-- Model of `TranslationService.translateSystemContent`: keep a plain string,
otherwise join the text parts with newlines. -/
def translateSystemContent : SysContent → String
  | .str s => s
  | .parts bs =>
    String.intercalate "\n" (bs.filterMap fun b =>
      match b with
      | .text t => some t
      | _ => none)

/-- JavaScript truthiness of the optional system field. -/
def sysTruthy : Option SysContent → Bool
  | none => false
  | some (.str s) => !s.isEmpty
  | some (.parts _) => true

/-- An Anthropic tool definition: a standard schema-carrying tool or a
built-in capability type. -/
inductive ATool where
  | tool (name : String) (description : Option String) (input_schema : Json)
  | builtin (ttype : String) (name : String)
deriving Repr

/-- An outbound OpenAI function-tool definition. -/
structure OAITool where
  name : String
  description : String
  parameters : Json
deriving Repr

/-- The minimal JSON schema with one required string property. -/
def oneStringPropSchema (prop desc : String) : Json :=
  .obj [("type", .str "object"),
    ("properties", .obj [(prop, .obj [("type", .str "string"), ("description", .str desc)])]),
    ("required", .arr [.str prop])]

/-- Model of `TranslationService.translateAnthropicTools`: standard tools map their
schema through; known built-in types get a synthesised schema; unknown
types get an empty-object schema. -/
def translateAnthropicTools (tools : List ATool) : List OAITool :=
  tools.map fun t =>
    match t with
    | .tool name desc schema => ⟨name, desc.getD "", schema⟩
    | .builtin ttype name =>
      if ttype = "bash_20250124" then
        ⟨name, "Execute bash commands", oneStringPropSchema "command" "The bash command to execute"⟩
      else if ttype = "text_editor_20250124" then
        ⟨name, "Edit text files",
          .obj [("type", .str "object"),
            ("properties", .obj
              [("path", .obj [("type", .str "string"), ("description", .str "Path to the file")]),
                ("content", .obj [("type", .str "string"), ("description", .str "New content for the file")])]),
            ("required", .arr [.str "path", .str "content"])]⟩
      else if ttype = "text_editor_20250429" then
        ⟨name, "String replacement based text editor",
          .obj [("type", .str "object"),
            ("properties", .obj
              [("path", .obj [("type", .str "string"), ("description", .str "Path to the file")]),
                ("old_str", .obj [("type", .str "string"), ("description", .str "String to replace")]),
                ("new_str", .obj [("type", .str "string"), ("description", .str "Replacement string")])]),
            ("required", .arr [.str "path", .str "old_str", .str "new_str"])]⟩
      else if ttype = "web_search_20250305" then
        ⟨name, "Search the web for information",
          .obj [("type", .str "object"),
            ("properties", .obj
              [("query", .obj [("type", .str "string"), ("description", .str "The search query to execute")])]),
            ("required", .arr [.str "query"]),
            ("additionalProperties", .bool false)]⟩
      else
        ⟨(if name.isEmpty then "unknown" else name), "Unknown tool type",
          .obj [("type", .str "object"), ("properties", .obj [])]⟩

/-- An inbound Anthropic tool-choice value (`type` plus optional name). -/
structure AToolChoice where
  ctype : String
  name : Option String
deriving Repr, DecidableEq

/-- An outbound OpenAI tool-choice value. -/
inductive OAIToolChoice where
  | auto
  | function (name : String)
deriving Repr, DecidableEq

/-- Model of `TranslationService.translateAnthropicToolChoice`: the total mapping of
tool-choice policies, defaulting to `auto`. -/
def translateAnthropicToolChoice : Option AToolChoice → OAIToolChoice
  | none => .auto
  | some tc =>
    if tc.ctype = "auto" then .auto
    else if tc.ctype = "any" then .auto
    else if tc.ctype = "tool" && truthy tc.name then .function (tc.name.getD "")
    else .auto

/-- An inbound Anthropic request, flattened to the fields the translation
reads. -/
structure AReq where
  model : String
  max_tokens : Nat
  messages : List AMsg
  system : Option SysContent
  temperature : Option Nat
  top_p : Option Nat
  stop_sequences : Option (List String)
  stream : Bool
  tools : Option (List ATool)
  tool_choice : Option AToolChoice
deriving Repr

/-- The outbound OpenAI request the translation builds. -/
structure OReq where
  model : String
  max_tokens : Nat
  messages : List OutMsg
  temperature : Option Nat
  top_p : Option Nat
  tools : Option (List OAITool)
  tool_choice : Option OAIToolChoice
  stop : Option String
  stream : Bool
  include_usage : Bool
deriving Repr

/-- Model of `TranslationService.anthropicToOpenAI`: build the outbound request.
The first stop sequence (if any) becomes the `stop` parameter; a present
tool choice is translated; the resolved model name is passed in. -/
def anthropicToOpenAI (request : AReq) (modelName : String) : OReq :=
  let sysMsgs :=
    if sysTruthy request.system then
      [OutMsg.systemMsg (translateSystemContent (request.system.getD (.str "")))]
    else []
  let conversationMessages := request.messages.flatMap translateAnthropicMessage
  { model := modelName
    max_tokens := request.max_tokens
    messages := sysMsgs ++ conversationMessages
    temperature := request.temperature
    top_p := request.top_p
    tools := request.tools.map translateAnthropicTools
    tool_choice := request.tool_choice.map fun tc => translateAnthropicToolChoice (some tc)
    stop := match request.stop_sequences with
      | some l => l.head?
      | none => none
    stream := request.stream
    include_usage := request.stream }

/-! ## `SimpleToolBatcher` and `StreamingToolBatcher`

Embeds `simple-tool-batcher.ts` and `streaming-tool-batcher.ts`.  Upstream
responses are flattened to the fields the combiner reads, with everything
the last-response spread copies verbatim kept opaque in `choicesContent`. -/

/-- The usage object of a non-streaming upstream response. -/
structure RespUsage where
  prompt_tokens : Option Nat
  completion_tokens : Option Nat
  total_tokens : Option Nat
deriving Repr, DecidableEq

/-- A non-streaming upstream response: the combiner only replaces `usage`,
so all other fields are kept together as `choicesContent`. -/
structure Resp where
  choicesContent : String
  usage : Option RespUsage
deriving Repr, DecidableEq

/-- Model of `SimpleToolBatcher.needsBatching`: batch only when configured to and
the request carries more than one tool-role message. -/
def needsBatching (shouldBatch : Bool) (request : OReq) : Bool :=
  shouldBatch && decide ((request.messages.filter fun m => m.role = "tool").length > 1)

/-- Model of `SimpleToolBatcher.findToolResultIndices`, with an explicit running
index. -/
def toolIndicesFrom (i : Nat) : List OutMsg → List Nat
  | [] => []
  | m :: rest =>
    if m.role = "tool" then i :: toolIndicesFrom (i + 1) rest
    else toolIndicesFrom (i + 1) rest

/-- The per-request message filter of `createSingleToolResultRequests`:
keep every non-tool message, and the tool message at index `ti` only. -/
def filterKeepTool (i ti : Nat) : List OutMsg → List OutMsg
  | [] => []
  | m :: rest =>
    (if m.role = "tool" then (if i = ti then [m] else []) else [m]) ++
      filterKeepTool (i + 1) ti rest

/-- Model of `SimpleToolBatcher.createSingleToolResultRequests`: split a request
with several tool results into one request per tool result. -/
def createSingleToolResultRequests (request : OReq) : List OReq :=
  let toolResultIndices := toolIndicesFrom 0 request.messages
  if toolResultIndices.length ≤ 1 then [request]
  else
    toolResultIndices.map fun ti =>
      { request with messages := filterKeepTool 0 ti request.messages }

/-- The summed usage statistics of `combineSingleToolResponses`. -/
def sumResponsesUsage (responses : List Resp) : Nat × Nat × Nat :=
  responses.foldl
    (fun acc r =>
      match r.usage with
      | none => acc
      | some u =>
        (acc.1 + u.prompt_tokens.getD 0, acc.2.1 + u.completion_tokens.getD 0,
          acc.2.2 + u.total_tokens.getD 0))
    (0, 0, 0)

/-- Model of `SimpleToolBatcher.combineSingleToolResponses`: the last response is
the base, and usage is summed across all responses.  `none` models the
exception thrown on an empty list. -/
def combineSingleToolResponses (responses : List Resp) : Option Resp :=
  match responses with
  | [] => none
  | [r] => some r
  | _ =>
    let base := responses.getLast?.getD ⟨"", none⟩
    let summed : RespUsage :=
      ⟨some (sumResponsesUsage responses).1, some (sumResponsesUsage responses).2.1,
        some (sumResponsesUsage responses).2.2⟩
    some { base with usage := some summed }

/-- The event buffer of `StreamingToolBatcher`. -/
structure StreamBuf where
  messageStartSent : Bool
  bufferedInput : Nat
  bufferedOutput : Nat
  streamCount : Nat
deriving Repr, DecidableEq

/-- A fresh stream buffer (`resetEventBuffer`). -/
def StreamBuf.init : StreamBuf :=
  { messageStartSent := false, bufferedInput := 0, bufferedOutput := 0, streamCount := 0 }

/-- Model of `StreamingToolBatcher.processStreamChunk`: pass content events through,
buffer usage, and emit `message_start` only once on the first stream.  The
`message_delta` of this batcher carries no stop reason, modelled as the
empty string; the source's `isLast` flag only gates logging and is
omitted. -/
def processStreamChunk (buf : StreamBuf) (c : Chunk) (isFirst : Bool) :
    List Ev × StreamBuf :=
  let emitStart := isFirst && truthy c.role && !buf.messageStartSent
  let msEvs :=
    if emitStart then [Ev.message_start c.id "batched-model" ⟨0, 0⟩] else []
  let buf1 := if emitStart then { buf with messageStartSent := true } else buf
  let txtEvs :=
    if truthy c.content then
      [Ev.content_block_delta 0 (.text_delta (c.content.getD ""))]
    else []
  let tcEvs := (c.tool_calls.getD []).flatMap fun tc =>
    if truthy tc.fname then
      [Ev.content_block_start (tc.index.getD 0)
        (.tool_use ("tool_" ++ c.id ++ "_" ++ toString (tc.index.getD 0)) (tc.fname.getD ""))]
    else if truthy tc.fargs then
      [Ev.content_block_delta (tc.index.getD 0) (.input_json_delta (tc.fargs.getD ""))]
    else []
  let buf2 :=
    match c.usage with
    | some u =>
      { buf1 with
        bufferedInput := buf1.bufferedInput + u.prompt_tokens.getD 0
        bufferedOutput := buf1.bufferedOutput + u.completion_tokens.getD 0 }
    | none => buf1
  (msEvs ++ txtEvs ++ tcEvs, buf2)

/-- Fold `processStreamChunk` over the chunks of one stream. -/
def goChunks (buf : StreamBuf) : List Chunk → Bool → List Ev × StreamBuf
  | [], _ => ([], buf)
  | c :: rest, isFirst =>
    ((processStreamChunk buf c isFirst).1 ++
        (goChunks (processStreamChunk buf c isFirst).2 rest isFirst).1,
      (goChunks (processStreamChunk buf c isFirst).2 rest isFirst).2)

/-- Model of `StreamingToolBatcher.processIndividualStream`: bump the stream counter
and process every chunk of one upstream stream. -/
def processIndividualStream (buf : StreamBuf) (chunks : List Chunk) (isFirst : Bool) :
    List Ev × StreamBuf :=
  goChunks { buf with streamCount := buf.streamCount + 1 } chunks isFirst

/-- Model of `StreamingToolBatcher.generateFinalEvents`: one optional aggregated
`message_delta`, then the single terminal `message_stop`. -/
def generateFinalEvents (buf : StreamBuf) : List Ev :=
  (if buf.bufferedInput > 0 || buf.bufferedOutput > 0 then
    [Ev.message_delta "" ⟨buf.bufferedInput, buf.bufferedOutput⟩]
  else []) ++ [Ev.message_stop]

/-- The sequential stream loop of `processSequentialStreams`, without the
trailing final events. -/
def goStreams (buf : StreamBuf) (isFirst : Bool) : List (List Chunk) → List Ev × StreamBuf
  | [] => ([], buf)
  | s :: rest =>
    ((processIndividualStream buf s isFirst).1 ++
        (goStreams (processIndividualStream buf s isFirst).2 false rest).1,
      (goStreams (processIndividualStream buf s isFirst).2 false rest).2)

/-- Model of `StreamingToolBatcher.processSequentialStreams` on the successful path:
all partial streams in order, then the final aggregated events. -/
def processSequentialStreams (streams : List (List Chunk)) : List Ev :=
  (goStreams StreamBuf.init true streams).1 ++
    generateFinalEvents (goStreams StreamBuf.init true streams).2

/-! ## Derived definitions used by the theorems -/

/-- The per-block translation of a user turn's text/image content: text
blocks and base64 images are kept (in order), anything else is dropped. -/
def userPartOf : ABlock → Option OAIPart
  | .text t => some (.text t)
  | .image src =>
    if src.stype = "base64" then
      some (.image_url ("data:" ++ src.mediaType ++ ";base64," ++ src.data))
    else none
  | .tool_use _ _ _ => none
  | .tool_result _ _ _ => none

/-- The provider id that one correlate call derives for a given local id,
under a fixed randomness oracle. -/
def genOf (uuidFor : String → String) (a : String) : String :=
  generateOpenAICompatibleId (uuidFor a) a

/-- The invariant of a correlate-only session: ids satisfying `P` have been
correlated, carry their derived provider id forward, and resolve back;
everything else is absent from both maps. -/
def MapperInv (uuidFor : String → String) (P : String → Prop) (m : ToolIdMapper) : Prop :=
  (∀ x, P x → m.getOpenAIId x = some (genOf uuidFor x)) ∧
    (∀ x, ¬P x → m.getOpenAIId x = none) ∧
    (∀ x, P x → m.getAnthropicId (genOf uuidFor x) = some x) ∧
    (∀ o, (∀ x, P x → genOf uuidFor x ≠ o) → m.getAnthropicId o = none)

/-- A chunk carrying one tool-call fragment and nothing else. -/
def toolFragChunk (chunkId : String) (idx : Nat) (tid fname fargs : Option String) : Chunk :=
  { Chunk.emptyChunk with
    id := chunkId
    tool_calls := some [{ index := some idx, id := tid, fname := fname, fargs := fargs }] }

/-- A chunk carrying only free text. -/
def textChunk (chunkId text : String) : Chunk :=
  { Chunk.emptyChunk with
    id := chunkId
    content := some text }

/-- A chunk carrying only a finish reason. -/
def finishChunk (chunkId reason : String) : Chunk :=
  { Chunk.emptyChunk with
    id := chunkId
    finish_reason := some reason }

/-- A chunk carrying only usage totals. -/
def usageChunk (chunkId : String) (prompt completion : Nat) : Chunk :=
  { Chunk.emptyChunk with
    id := chunkId
    usage := some { prompt_tokens := some prompt, completion_tokens := some completion } }

/-- A chunk carrying only the one-time role marker. -/
def roleChunk (chunkId : String) : Chunk :=
  { Chunk.emptyChunk with
    id := chunkId
    role := some "assistant" }

/-- The chunk sequence of the spec's fragmented-tool-arguments test: five
argument fragments at index 0 introducing tool `read_file`, then a
terminal chunk. -/
def readFileChunks : List Chunk :=
  [toolFragChunk "ck" 0 (some "call_abc") (some "read_file") (some " \""),
    toolFragChunk "ck" 0 none none (some "/"),
    toolFragChunk "ck" 0 none none (some "home"),
    toolFragChunk "ck" 0 none none (some "/user/file.txt\""),
    toolFragChunk "ck" 0 none none (some "\x7d"),
    finishChunk "ck" "tool_calls"]

/-- A chunk sequence on which a tool-use block starts before any text
block exists, and text arrives afterwards. -/
def toolBeforeTextChunks : List Chunk :=
  [toolFragChunk "chunk1" 0 (some "call_1") (some "f") none,
    textChunk "chunk2" "hi",
    finishChunk "chunk3" "tool_calls"]

/-- A chunk sequence in which authoritative usage arrives before the role
marker and the terminal chunk. -/
def usageFirstChunks : List Chunk :=
  [usageChunk "u" 100 5, roleChunk "r", finishChunk "f" "stop"]

/-- A request carrying three tool-result messages, used to exercise the
batching path. -/
def batchDemoRequest : OReq :=
  { model := "gpt", max_tokens := 64
    messages := [.userStr "question", .toolMsg "call_a" "one",
      .toolMsg "call_b" "two", .toolMsg "call_c" "three"]
    temperature := none, top_p := none, tools := none, tool_choice := none
    stop := none, stream := false, include_usage := false }

/-! ## Theorems -/

/-- The text/image part list computed by `translateAnthropicMessage` is the
in-order image-aware filter of the original blocks. -/
theorem splitBlocks_parts_eq_filterMap (bs : List ABlock) :
    (splitBlocks bs).1 = bs.filterMap userPartOf := by
  induction bs with
  | nil => rfl
  | cons b rest ih =>
    cases b with
    | text t => simp [splitBlocks, userPartOf, ih]
    | image src =>
      by_cases h : src.stype = "base64" <;>
        simp [splitBlocks, userPartOf, h, ih]
    | tool_use i n inp => simp [splitBlocks, userPartOf, ih]
    | tool_result tid c e => simp [splitBlocks, userPartOf, ih]

/-- Removing a non-base64 image block does not change the block split. -/
theorem splitBlocks_drop_non_base64 (src : ImgSource) (h : src.stype ≠ "base64")
    (bs1 bs2 : List ABlock) :
    splitBlocks (bs1 ++ ABlock.image src :: bs2) = splitBlocks (bs1 ++ bs2) := by
  induction bs1 with
  | nil => simp [splitBlocks, h]
  | cons b rest ih =>
    cases b with
    | text t => simp [splitBlocks, ih]
    | image s2 =>
      by_cases h2 : s2.stype = "base64" <;> simp [splitBlocks, h2, ih]
    | tool_use i n inp => simp [splitBlocks, ih]
    | tool_result tid c e => simp [splitBlocks, ih]

/-- C10: a user-turn image block whose source type is not base64 is
silently omitted from the translated outbound message — deleting it from
the turn leaves the translation unchanged — while text blocks and base64
image blocks are preserved in their original order (the part list is the
in-order `userPartOf` filter of the blocks, which keeps exactly those). -/
theorem c10_non_base64_images_silently_dropped :
    (∀ (src : ImgSource), src.stype ≠ "base64" →
      ∀ (bs1 bs2 : List ABlock),
        translateAnthropicMessage ⟨.user, .blocks (bs1 ++ ABlock.image src :: bs2)⟩ =
          translateAnthropicMessage ⟨.user, .blocks (bs1 ++ bs2)⟩) ∧
    (∀ bs : List ABlock,
      (splitBlocks bs).1 = bs.filterMap userPartOf) ∧
    (∀ src : ImgSource, src.stype ≠ "base64" → userPartOf (.image src) = none) ∧
    (∀ t : String, userPartOf (.text t) = some (.text t)) ∧
    (∀ src : ImgSource, src.stype = "base64" →
      userPartOf (.image src) =
        some (.image_url ("data:" ++ src.mediaType ++ ";base64," ++ src.data))) := by
  refine ⟨?_, splitBlocks_parts_eq_filterMap, ?_, ?_, ?_⟩
  · intro src h bs1 bs2
    simp only [translateAnthropicMessage, splitBlocks_drop_non_base64 src h]
  · intro src h
    simp [userPartOf, h]
  · intro t
    rfl
  · intro src h
    simp [userPartOf, h]

/-- C10 witness: dropping a URL-sourced image between two text blocks. -/
theorem c10_non_base64_images_silently_dropped_witness :
    translateAnthropicMessage
        ⟨.user, .blocks [.text "a", .image ⟨"url", "image/png", "Zm9v"⟩, .text "b"]⟩ =
      translateAnthropicMessage ⟨.user, .blocks [.text "a", .text "b"]⟩ :=
  c10_non_base64_images_silently_dropped.1 ⟨"url", "image/png", "Zm9v"⟩
    (by decide) [.text "a"] [.text "b"]

/-- C8: the tool-choice translation is the total mapping the spec states:
`auto` and `any` map to `auto`, a named `tool` choice maps to the forced
function choice carrying that exact name, and any other or absent value —
including a `tool` choice without a usable name — maps to `auto`. -/
theorem c8_tool_choice_total_mapping :
    (∀ n : Option String, translateAnthropicToolChoice (some ⟨"auto", n⟩) = .auto) ∧
    (∀ n : Option String, translateAnthropicToolChoice (some ⟨"any", n⟩) = .auto) ∧
    (∀ s : String, s.isEmpty = false →
      translateAnthropicToolChoice (some ⟨"tool", some s⟩) = .function s) ∧
    (∀ (ty : String) (n : Option String), ty ≠ "auto" → ty ≠ "any" → ty ≠ "tool" →
      translateAnthropicToolChoice (some ⟨ty, n⟩) = .auto) ∧
    translateAnthropicToolChoice (some ⟨"tool", none⟩) = .auto ∧
    translateAnthropicToolChoice (some ⟨"tool", some ""⟩) = .auto ∧
    translateAnthropicToolChoice none = .auto := by
  refine ⟨fun n => rfl, fun n => rfl, ?_, ?_, rfl, rfl, rfl⟩
  · intro s h
    simp [translateAnthropicToolChoice, truthy, h]
  · intro ty n h1 h2 h3
    simp [translateAnthropicToolChoice, h1, h2, h3]

/-- C8 witness: a forced named choice and an unknown kind. -/
theorem c8_tool_choice_total_mapping_witness :
    translateAnthropicToolChoice (some ⟨"tool", some "get_weather"⟩) =
        .function "get_weather" ∧
      translateAnthropicToolChoice (some ⟨"none", none⟩) = .auto :=
  ⟨c8_tool_choice_total_mapping.2.2.1 "get_weather" rfl,
    c8_tool_choice_total_mapping.2.2.2.1 "none" none (by decide) (by decide) (by decide)⟩

/-- C9: only the first stop sequence reaches the upstream `stop` parameter:
the translated request is entirely independent of the later stop
sequences, a present list forwards exactly its head, and an absent list
yields no `stop` parameter. -/
theorem c9_stop_sequences_first_only :
    (∀ (req : AReq) (modelName x : String) (rest1 rest2 : List String),
      anthropicToOpenAI { req with stop_sequences := some (x :: rest1) } modelName =
        anthropicToOpenAI { req with stop_sequences := some (x :: rest2) } modelName) ∧
    (∀ (req : AReq) (modelName x : String) (rest : List String),
      req.stop_sequences = some (x :: rest) →
      (anthropicToOpenAI req modelName).stop = some x) ∧
    (∀ (req : AReq) (modelName : String),
      req.stop_sequences = none → (anthropicToOpenAI req modelName).stop = none) := by
  refine ⟨fun req modelName x rest1 rest2 => rfl, ?_, ?_⟩
  · intro req modelName x rest h
    simp [anthropicToOpenAI, h]
  · intro req modelName h
    simp [anthropicToOpenAI, h]

/-- C9 witness: three stop sequences; the two dropped ones do not matter. -/
theorem c9_stop_sequences_first_only_witness :
    (anthropicToOpenAI
        { model := "claude", max_tokens := 10, messages := [], system := none
          temperature := none, top_p := none
          stop_sequences := some ["STOP", "END", "HALT"], stream := false
          tools := none, tool_choice := none } "gpt").stop = some "STOP" :=
  c9_stop_sequences_first_only.2.1 _ "gpt" "STOP" ["END", "HALT"] rfl

/-- C2 counterexample: on the input "json" the strict parse fails and the
fallback scan finds no syntactically complete top-level object, yet the
decoder result is the empty list — not the sentinel object carrying
raw_arguments and parse_error that the claim requires for the
nothing-parseable case. -/
theorem c2_decoder_counterexample :
    jsonParse "json" = .error "Unexpected token in JSON" ∧
    scanCompleteObjects "json" = .ok [] ∧
    safeParseToolArguments "json" = .arr [] ∧
    isSentinelPayload (safeParseToolArguments "json") = false :=
  ⟨rfl, rfl, rfl, rfl⟩

/-- C2 (amended): the decoder is total and returns the strictly parsed
value when the whole string is valid JSON; the single object when the scan
collects exactly one complete top-level object; the ordered list of
collected objects otherwise — including the empty list when the scan
completes without finding any object — and the sentinel payload carrying
raw_arguments and the original parse_error exactly when the scan itself
fails on a brace-balanced slice. -/
theorem c2_decoder_amended :
    (∀ (s : String) (v : Json), jsonParse s = .ok v → safeParseToolArguments s = v) ∧
    (∀ (s e : String) (o : Json),
      jsonParse s = .error e → scanCompleteObjects s = .ok [o] →
      safeParseToolArguments s = o) ∧
    (∀ (s e : String) (objs : List Json),
      jsonParse s = .error e → scanCompleteObjects s = .ok objs → objs.length ≠ 1 →
      safeParseToolArguments s = .arr objs) ∧
    (∀ (s e e2 : String),
      jsonParse s = .error e → parseMultipleJSONObjects s = .error e2 →
      safeParseToolArguments s = sentinelPayload s e ∧
        isSentinelPayload (sentinelPayload s e) = true) := by
  refine ⟨?_, ?_, ?_, ?_⟩
  · intro s v h
    simp [safeParseToolArguments, h]
  · intro s e o h1 h2
    simp [safeParseToolArguments, parseMultipleJSONObjects, Except.map, h1, h2]
  · intro s e objs h1 h2 hne
    cases objs with
    | nil => simp [safeParseToolArguments, parseMultipleJSONObjects, Except.map, h1, h2]
    | cons o rest =>
      cases rest with
      | nil => exact absurd rfl hne
      | cons o2 rest2 =>
        simp [safeParseToolArguments, parseMultipleJSONObjects, Except.map, h1, h2]
  · intro s e e2 h1 h2
    refine ⟨?_, rfl⟩
    simp [safeParseToolArguments, h1, h2]

/-- C2 witness: the three recovery shapes of the spec's examples. -/
theorem c2_decoder_amended_witness :
    safeParseToolArguments "\x7b\"query\":\"normal\"\x7d" =
        .obj [("query", .str "normal")] ∧
      safeParseToolArguments "\x7b\"query\":\"a\"\x7d\x7b\"query\":\"b\"\x7d" =
        .arr [.obj [("query", .str "a")], .obj [("query", .str "b")]] ∧
      safeParseToolArguments "\x7b\"invalid\": json\x7d" =
        sentinelPayload "\x7b\"invalid\": json\x7d" "Unexpected token in JSON" :=
  ⟨c2_decoder_amended.1 "\x7b\"query\":\"normal\"\x7d" _ rfl,
    c2_decoder_amended.2.2.1 "\x7b\"query\":\"a\"\x7d\x7b\"query\":\"b\"\x7d"
      "Unexpected non-whitespace character after JSON" _ rfl rfl (by decide),
    (c2_decoder_amended.2.2.2 "\x7b\"invalid\": json\x7d" "Unexpected token in JSON"
      "Unexpected token in JSON" rfl rfl).1⟩

/-- A `Map.set` followed by `Map.get` at the same key yields the new value. -/
theorem mapGet_mapSet_self {α β : Type} [DecidableEq α]
    (m : List (α × β)) (k : α) (v : β) :
    mapGet (mapSet m k v) k = some v := by
  induction m with
  | nil => simp [mapSet, mapGet]
  | cons kv rest ih =>
    obtain ⟨k', v'⟩ := kv
    by_cases h : k' = k <;> simp [mapSet, mapGet, h, ih]

/-- A `Map.set` leaves every other key unchanged. -/
theorem mapGet_mapSet_ne {α β : Type} [DecidableEq α]
    (m : List (α × β)) (k k' : α) (v : β) (h : k' ≠ k) :
    mapGet (mapSet m k v) k' = mapGet m k' := by
  induction m with
  | nil =>
    simp only [mapSet, mapGet]
    rw [if_neg fun he => h he.symm]
  | cons kv rest ih =>
    obtain ⟨k'', v''⟩ := kv
    simp only [mapSet]
    by_cases h2 : k'' = k
    · subst h2
      simp only [if_pos rfl, mapGet]
      rw [if_neg fun he => h he.symm, if_neg fun he => h he.symm]
    · simp only [if_neg h2, mapGet]
      by_cases h3 : k'' = k'
      · rw [if_pos h3, if_pos h3]
      · rw [if_neg h3, if_neg h3]
        exact ih

/-- The fresh mapper satisfies the session invariant for the empty set. -/
theorem mapperInv_empty (uuidFor : String → String) :
    MapperInv uuidFor (fun _ => False) .empty :=
  ⟨fun _ hx => hx.elim, fun _ _ => rfl, fun _ hx => hx.elim, fun _ _ => rfl⟩

/-- The session invariant only depends on the correlated-id set up to
pointwise equivalence. -/
theorem mapperInv_congr (uuidFor : String → String) {P Q : String → Prop}
    (h : ∀ x, P x ↔ Q x) {m : ToolIdMapper} (hinv : MapperInv uuidFor P m) :
    MapperInv uuidFor Q m := by
  obtain ⟨h1, h2, h3, h4⟩ := hinv
  exact ⟨fun x hx => h1 x ((h x).mpr hx),
    fun x hx => h2 x fun hp => hx ((h x).mp hp),
    fun x hx => h3 x ((h x).mpr hx),
    fun o ho => h4 o fun x hp => ho x ((h x).mp hp)⟩

/-- One correlate call preserves the session invariant, provided the new
id's derived provider id does not collide with an already-correlated one. -/
theorem correlate_preserves_inv (uuidFor : String → String) {P : String → Prop}
    {m : ToolIdMapper} (i : String) (hinv : MapperInv uuidFor P m)
    (hcol : ∀ x, P x → x ≠ i → genOf uuidFor x ≠ genOf uuidFor i) :
    MapperInv uuidFor (fun x => x = i ∨ P x) (getOrCreateOpenAIId uuidFor m i).2.2 := by
  obtain ⟨h1, h2, h3, h4⟩ := hinv
  by_cases hPi : P i
  · have hfwd : m.getOpenAIId i = some (genOf uuidFor i) := h1 i hPi
    simp only [getOrCreateOpenAIId, hfwd]
    exact mapperInv_congr uuidFor
      (fun x => ⟨Or.inr, fun hx => hx.elim (fun he => he ▸ hPi) id⟩) ⟨h1, h2, h3, h4⟩
  · have hfwd : m.getOpenAIId i = none := h2 i hPi
    simp only [getOrCreateOpenAIId, hfwd]
    refine ⟨?_, ?_, ?_, ?_⟩
    · intro x hx
      rcases hx with he | hP
      · subst he
        exact mapGet_mapSet_self ..
      · have hne : x ≠ i := fun he => hPi (he ▸ hP)
        show mapGet (mapSet m.anthropicToOpenAI i (genOf uuidFor i)) x =
          some (genOf uuidFor x)
        rw [mapGet_mapSet_ne _ _ _ _ hne]
        exact h1 x hP
    · intro x hx
      obtain ⟨hne, hnP⟩ := not_or.mp hx
      show mapGet (mapSet m.anthropicToOpenAI i (genOf uuidFor i)) x = none
      rw [mapGet_mapSet_ne _ _ _ _ hne]
      exact h2 x hnP
    · intro x hx
      rcases hx with he | hP
      · subst he
        exact mapGet_mapSet_self ..
      · have hne : x ≠ i := fun he => hPi (he ▸ hP)
        show mapGet (mapSet m.openAIToAnthropic (genOf uuidFor i) i) (genOf uuidFor x) =
          some x
        rw [mapGet_mapSet_ne _ _ _ _ (hcol x hP hne)]
        exact h3 x hP
    · intro o ho
      have hne : genOf uuidFor i ≠ o := ho i (Or.inl rfl)
      show mapGet (mapSet m.openAIToAnthropic (genOf uuidFor i) i) o = none
      rw [mapGet_mapSet_ne _ _ _ _ fun he => hne he.symm]
      exact h4 o fun x hP => ho x (Or.inr hP)

/-- Running a collision-free sequence of correlate calls maintains the
session invariant for the enlarged id set. -/
theorem runCorrelates_inv (uuidFor : String → String) :
    ∀ (ids : List String) {P : String → Prop} {m : ToolIdMapper},
      MapperInv uuidFor P m →
      (∀ x y, (P x ∨ x ∈ ids) → (P y ∨ y ∈ ids) → x ≠ y →
        genOf uuidFor x ≠ genOf uuidFor y) →
      MapperInv uuidFor (fun x => x ∈ ids ∨ P x) (runCorrelates uuidFor m ids) := by
  intro ids
  induction ids with
  | nil =>
    intro P m hinv _
    exact mapperInv_congr uuidFor (fun x => by simp) hinv
  | cons i rest ih =>
    intro P m hinv hcol
    have hstep := correlate_preserves_inv uuidFor i hinv
      (fun x hx hne => hcol x i (Or.inl hx) (Or.inr (List.mem_cons_self i rest)) hne)
    have hrec := ih hstep
      (fun x y hx hy hne => hcol x y ?_ ?_ hne)
    · exact mapperInv_congr uuidFor (fun x => by simp [List.mem_cons]; tauto) hrec
    · rcases hx with (he | hP) | hr
      · exact Or.inr (he ▸ List.mem_cons_self i rest)
      · exact Or.inl hP
      · exact Or.inr (List.mem_cons_of_mem i hr)
    · rcases hy with (he | hP) | hr
      · exact Or.inr (he ▸ List.mem_cons_self i rest)
      · exact Or.inl hP
      · exact Or.inr (List.mem_cons_of_mem i hr)

/-- C4 counterexample: the local ids "0" and "tool:0" both normalise to
the provider id call_tool_0.  After correlating both in one session,
resolving the provider id returned for "0" yields "tool:0", so
resolve(correlate("0")) is not "0". -/
theorem c4_roundtrip_counterexample :
    (getOrCreateOpenAIId (fun _ => "uu")
        (runCorrelates (fun _ => "uu") .empty ["0", "tool:0"]) "0").1 = "call_tool_0" ∧
      (runCorrelates (fun _ => "uu") .empty ["0", "tool:0"]).mapOpenAIId "call_tool_0" =
        "tool:0" ∧
      ((getOrCreateOpenAIId (fun _ => "uu")
            (runCorrelates (fun _ => "uu") .empty ["0", "tool:0"]) "0").2.2).mapOpenAIId
          ((getOrCreateOpenAIId (fun _ => "uu")
            (runCorrelates (fun _ => "uu") .empty ["0", "tool:0"]) "0").1) ≠ "0" :=
  ⟨rfl, rfl, by decide⟩

/-- C4 (amended): after any sequence of correlate calls in one session,
resolving the provider id obtained by correlating a local id yields that
id back — including ids with no prior correlation — provided no two
distinct local ids involved derive the same provider id (the source's id
normalisation is not injective, and a collision overwrites the earlier
reverse entry). -/
theorem c4_roundtrip_amended (uuidFor : String → String) (ids : List String) (a : String)
    (hinj : ∀ x ∈ a :: ids, ∀ y ∈ a :: ids, x ≠ y →
      genOf uuidFor x ≠ genOf uuidFor y) :
    ((getOrCreateOpenAIId uuidFor (runCorrelates uuidFor .empty ids) a).2.2).mapOpenAIId
      ((getOrCreateOpenAIId uuidFor (runCorrelates uuidFor .empty ids) a).1) = a := by
  have hinv := runCorrelates_inv uuidFor ids (P := fun _ => False)
    (mapperInv_empty uuidFor)
    (fun x y hx hy hne => hinj x
      (List.mem_cons_of_mem a (hx.resolve_left False.elim))
      y (List.mem_cons_of_mem a (hy.resolve_left False.elim)) hne)
  obtain ⟨h1, h2, h3, h4⟩ := hinv
  by_cases hmem : a ∈ ids
  · have hfwd := h1 a (Or.inl hmem)
    simp only [getOrCreateOpenAIId, hfwd]
    simp [ToolIdMapper.mapOpenAIId, h3 a (Or.inl hmem)]
  · have hfwd := h2 a (fun hx => hx.elim hmem False.elim)
    simp only [getOrCreateOpenAIId, hfwd]
    show (((runCorrelates uuidFor .empty ids).mapIds a
        (genOf uuidFor a)).getAnthropicId (genOf uuidFor a)).getD (genOf uuidFor a) = a
    show (mapGet (mapSet (runCorrelates uuidFor .empty ids).openAIToAnthropic
        (genOf uuidFor a) a) (genOf uuidFor a)).getD (genOf uuidFor a) = a
    rw [mapGet_mapSet_self]
    rfl

/-- C4 witness: a fresh id and a previously correlated id, collision-free. -/
theorem c4_roundtrip_amended_witness :
    ((getOrCreateOpenAIId (fun _ => "uu")
        (runCorrelates (fun _ => "uu") .empty ["toolu_1"]) "0").2.2).mapOpenAIId
      ((getOrCreateOpenAIId (fun _ => "uu")
        (runCorrelates (fun _ => "uu") .empty ["toolu_1"]) "0").1) = "0" :=
  c4_roundtrip_amended (fun _ => "uu") ["toolu_1"] "0" (by decide)

/-- C5 counterexample: re-mapping the local id "a" from provider id "x"
to "y" leaves the stale reverse entry for "x" behind, so the correlation
table is no longer a bijection. -/
theorem c5_bijection_counterexample :
    ¬ IsBijection (runOps (fun _ => "uu") .empty [.mapIdsOp "a" "x", .mapIdsOp "a" "y"]) := by
  intro h
  have h2 := (h "a" "x").mpr rfl
  have h3 : (runOps (fun _ => "uu") .empty
      [.mapIdsOp "a" "x", .mapIdsOp "a" "y"]).getOpenAIId "a" = some "y" := rfl
  rw [h3] at h2
  exact absurd h2 (by decide)

/-- Re-recording a pair that conflicts with no existing entry preserves
the bijection property of the correlation table. -/
theorem mapIds_preserves_bijection {m : ToolIdMapper} (a o : String)
    (hb : IsBijection m)
    (hfwd : m.getOpenAIId a = none ∨ m.getOpenAIId a = some o)
    (hrev : m.getAnthropicId o = none ∨ m.getAnthropicId o = some a) :
    IsBijection (m.mapIds a o) := by
  intro x p
  by_cases hx : x = a
  · subst hx
    by_cases hp : p = o
    · subst hp
      constructor
      · intro _
        show mapGet (mapSet m.openAIToAnthropic p x) p = some x
        exact mapGet_mapSet_self ..
      · intro _
        show mapGet (mapSet m.anthropicToOpenAI x p) x = some p
        exact mapGet_mapSet_self ..
    · constructor
      · intro hfx
        have : some o = some p := by
          rw [show (m.mapIds x o).getOpenAIId x =
            mapGet (mapSet m.anthropicToOpenAI x o) x from rfl,
            mapGet_mapSet_self] at hfx
          exact hfx
        exact absurd (Option.some.inj this) fun he => hp he.symm
      · intro hrx
        rw [show (m.mapIds x o).getAnthropicId p =
          mapGet (mapSet m.openAIToAnthropic o x) p from rfl,
          mapGet_mapSet_ne _ _ _ _ fun he => hp he] at hrx
        have hfx := (hb x p).mpr hrx
        rcases hfwd with hf | hf
        · rw [hf] at hfx
          exact absurd hfx (by simp)
        · rw [hf] at hfx
          exact absurd (Option.some.inj hfx) fun he => hp he.symm
  · by_cases hp : p = o
    · subst hp
      constructor
      · intro hfx
        rw [show (m.mapIds a p).getOpenAIId x =
          mapGet (mapSet m.anthropicToOpenAI a p) x from rfl,
          mapGet_mapSet_ne _ _ _ _ hx] at hfx
        have hrx := (hb x p).mp hfx
        rcases hrev with hr | hr
        · rw [hr] at hrx
          exact absurd hrx (by simp)
        · rw [hr] at hrx
          exact absurd (Option.some.inj hrx) fun he => hx he.symm
      · intro hrx
        rw [show (m.mapIds a p).getAnthropicId p =
          mapGet (mapSet m.openAIToAnthropic p a) p from rfl,
          mapGet_mapSet_self] at hrx
        exact absurd (Option.some.inj hrx) fun he => hx he.symm
    · rw [show (m.mapIds a o).getOpenAIId x =
        mapGet (mapSet m.anthropicToOpenAI a o) x from rfl,
        show (m.mapIds a o).getAnthropicId p =
        mapGet (mapSet m.openAIToAnthropic o a) p from rfl,
        mapGet_mapSet_ne _ _ _ _ hx, mapGet_mapSet_ne _ _ _ _ hp]
      exact hb x p

/-- One conflict-free mapper operation preserves the bijection property. -/
theorem stepOp_preserves_bijection (uuidFor : String → String) {m : ToolIdMapper}
    (op : MapperOp) (hb : IsBijection m) (hc : opCompat uuidFor m op) :
    IsBijection (stepOp uuidFor m op) := by
  cases op with
  | mapIdsOp a o => exact mapIds_preserves_bijection a o hb hc.1 hc.2
  | mapAnthropicIdOp a =>
    show IsBijection (match m.getOpenAIId a with
      | some _ => m
      | none => m.mapIds a ("call_" ++ uuidFor a))
    cases hfwd : m.getOpenAIId a with
    | some p => exact hb
    | none =>
      rcases hc with hc | hc
      · exact absurd hfwd hc
      · exact mapIds_preserves_bijection _ _ hb (Or.inl hfwd) (Or.inl hc)
  | getOrCreateOp a =>
    show IsBijection (getOrCreateOpenAIId uuidFor m a).2.2
    unfold getOrCreateOpenAIId
    cases hfwd : m.getOpenAIId a with
    | some p => exact hb
    | none =>
      rcases hc with hc | hc
      · exact absurd hfwd hc
      · exact mapIds_preserves_bijection _ _ hb (Or.inl hfwd) (Or.inl hc)

/-- The fresh mapper is trivially a bijection. -/
theorem empty_isBijection : IsBijection .empty := by
  intro a o
  constructor
  · intro h
    exact absurd h (by simp [ToolIdMapper.getOpenAIId, ToolIdMapper.empty, mapGet])
  · intro h
    exact absurd h (by simp [ToolIdMapper.getAnthropicId, ToolIdMapper.empty, mapGet])

/-- A conflict-free operation sequence preserves the bijection property. -/
theorem runOps_preserves_bijection (uuidFor : String → String) :
    ∀ (ops : List MapperOp) {m : ToolIdMapper},
      IsBijection m → CompatRun uuidFor m ops →
      IsBijection (runOps uuidFor m ops) := by
  intro ops
  induction ops with
  | nil => intro m hb _; exact hb
  | cons op rest ih =>
    intro m hb hc
    exact ih (stepOp_preserves_bijection uuidFor op hb hc.1) hc.2

/-- C5 (amended): after any conflict-free sequence of mapIds /
mapAnthropicId / getOrCreateOpenAIId operations — one that never re-maps
an already-mapped local or provider id to a different partner — the id
correlation table is a strict bijection: the forward and reverse lookups
are mutual inverses with no stale entries.  (Without that restriction the
claim fails: an overwriting mapIds leaves a stale reverse entry.) -/
theorem c5_bijection_amended (uuidFor : String → String) (ops : List MapperOp)
    (h : CompatRun uuidFor .empty ops) :
    IsBijection (runOps uuidFor .empty ops) :=
  runOps_preserves_bijection uuidFor ops empty_isBijection h

/-- C5 witness: an explicit pair plus a generated correlation. -/
theorem c5_bijection_amended_witness :
    IsBijection (runOps (fun _ => "uu") .empty
      [.mapIdsOp "a" "x", .getOrCreateOp "toolu_9"]) :=
  c5_bijection_amended (fun _ => "uu") [.mapIdsOp "a" "x", .getOrCreateOp "toolu_9"]
    ⟨⟨Or.inl rfl, Or.inl rfl⟩, ⟨Or.inr rfl, trivial⟩⟩

/-- C1 (failing input): on a chunk sequence whose tool-use block starts
before any text block exists and whose text arrives afterwards, the
machine emits two content_block_start events for output index 0 (the
tool-use block and then the text block), closes index 0 only once, and
emits a content_block_stop for index 1 — an index that was never started —
because the tool block's output offset is recomputed after the text block
opens.  This violates the open/close nesting invariant. -/
theorem c1_nesting_violation_at_failing_input :
    (runChunks (SState.init "m" 0) toolBeforeTextChunks).1 =
      [Ev.content_block_start 0 (.tool_use "toolu_stream_chunk1_0" "f"),
        Ev.content_block_start 0 .text,
        Ev.content_block_delta 0 (.text_delta "hi"),
        Ev.content_block_stop 0,
        Ev.content_block_stop 1,
        Ev.message_delta "tool_use" ⟨0, 0⟩,
        Ev.message_stop] ∧
      ((runChunks (SState.init "m" 0) toolBeforeTextChunks).1.countP (·.isStartAt 0)) = 2 ∧
      ((runChunks (SState.init "m" 0) toolBeforeTextChunks).1.countP (·.isStopAt 0)) = 1 ∧
      ((runChunks (SState.init "m" 0) toolBeforeTextChunks).1.countP (·.isStartAt 1)) = 0 ∧
      ((runChunks (SState.init "m" 0) toolBeforeTextChunks).1.countP (·.isStopAt 1)) = 1 ∧
      ((runChunks (SState.init "m" 0) toolBeforeTextChunks).1.countP Ev.isMessageStop) = 1 :=
  ⟨rfl, rfl, rfl, rfl, rfl, rfl⟩

/-- C7: for the spec's fragmented read_file stream the machine emits
exactly one content_block_start (the read_file tool-use block), five
partial-json content_block_deltas at the same output index whose texts
concatenate to the concatenation of the five fragments, and exactly one
content_block_stop for that index, emitted only by the terminal chunk. -/
theorem c7_fragmented_tool_arguments :
    (runChunks (SState.init "m" 0) readFileChunks).1 =
      [Ev.content_block_start 0 (.tool_use "toolu_stream_ck_0" "read_file"),
        Ev.content_block_delta 0 (.input_json_delta " \""),
        Ev.content_block_delta 0 (.input_json_delta "/"),
        Ev.content_block_delta 0 (.input_json_delta "home"),
        Ev.content_block_delta 0 (.input_json_delta "/user/file.txt\""),
        Ev.content_block_delta 0 (.input_json_delta "\x7d"),
        Ev.content_block_stop 0,
        Ev.message_delta "tool_use" ⟨0, 0⟩,
        Ev.message_stop] ∧
      ((runChunks (SState.init "m" 0) readFileChunks).1.countP
          fun e => e.isStartAt 0) = 1 ∧
      ((runChunks (SState.init "m" 0) readFileChunks).1.countP Ev.isJsonDelta) = 5 ∧
      String.join ((runChunks (SState.init "m" 0) readFileChunks).1.filterMap
          fun e => if e.isJsonDelta then some e.jsonDeltaText else none) =
        " \"/home/user/file.txt\"\x7d" ∧
      ((runChunks (SState.init "m" 0) (readFileChunks.take 5)).1.countP
          fun e => e.isStopAt 0) = 0 ∧
      ((runChunks (SState.init "m" 0) readFileChunks).1.countP
          fun e => e.isStopAt 0) = 1 :=
  ⟨rfl, rfl, rfl, rfl, rfl, rfl⟩

/-- C6 counterexample: when authoritative usage (100, 5) arrives before
the role marker, the machine records it, yet the message_start emitted by
the next chunk still carries the estimate (10, 0) — an emitted usage that
neither uses the authoritative value nor is at least as large. -/
theorem c6_usage_counterexample :
    (processChunk (SState.init "m" 10) (usageChunk "u" 100 5)).2.actualUsage =
      some ⟨100, 5⟩ ∧
      (processChunk (processChunk (SState.init "m" 10) (usageChunk "u" 100 5)).2
          (roleChunk "r")).1 =
        [Ev.message_start "r" "m" ⟨10, 0⟩] ∧
      (10 < 100) ∧
      (runChunks (SState.init "m" 10) usageFirstChunks).1 =
        [Ev.message_start "r" "m" ⟨10, 0⟩, Ev.message_delta "end_turn" ⟨100, 5⟩,
          Ev.message_stop] :=
  ⟨rfl, rfl, by decide, rfl⟩

/-- The step `processToolCallDelta` never touches the recorded authoritative usage. -/
theorem processToolCallDelta_actualUsage (st : SState) (tc : ToolCallDelta) (cid : String) :
    (processToolCallDelta st tc cid).2.actualUsage = st.actualUsage := rfl

/-- The step `processToolCallDelta` never touches the input-token estimate. -/
theorem processToolCallDelta_estimatedInputTokens (st : SState) (tc : ToolCallDelta)
    (cid : String) :
    (processToolCallDelta st tc cid).2.estimatedInputTokens = st.estimatedInputTokens := rfl

/-- The tool-call fragment fold never touches the authoritative usage. -/
theorem processToolCallDeltas_actualUsage :
    ∀ (tcs : List ToolCallDelta) (st : SState) (cid : String),
      (processToolCallDeltas st tcs cid).2.actualUsage = st.actualUsage := by
  intro tcs
  induction tcs with
  | nil => intro st cid; rfl
  | cons tc rest ih =>
    intro st cid
    rw [show (processToolCallDeltas st (tc :: rest) cid).2 =
      (processToolCallDeltas (processToolCallDelta st tc cid).2 rest cid).2 from rfl,
      ih, processToolCallDelta_actualUsage]

/-- The tool-call fragment fold never touches the input-token estimate. -/
theorem processToolCallDeltas_estimatedInputTokens :
    ∀ (tcs : List ToolCallDelta) (st : SState) (cid : String),
      (processToolCallDeltas st tcs cid).2.estimatedInputTokens =
        st.estimatedInputTokens := by
  intro tcs
  induction tcs with
  | nil => intro st cid; rfl
  | cons tc rest ih =>
    intro st cid
    rw [show (processToolCallDeltas st (tc :: rest) cid).2 =
      (processToolCallDeltas (processToolCallDelta st tc cid).2 rest cid).2 from rfl,
      ih, processToolCallDelta_estimatedInputTokens]

/-- A single tool-call fragment emits no `message_delta`. -/
theorem filter_msgDelta_processToolCallDelta (st : SState) (tc : ToolCallDelta)
    (cid : String) :
    (processToolCallDelta st tc cid).1.filter (·.isMessageDelta) = [] := by
  rw [List.filter_eq_nil_iff]
  intro e he
  simp only [processToolCallDelta, List.mem_append] at he
  rcases he with he | he <;> split at he <;> simp_all [Ev.isMessageDelta]

/-- The tool-call fragment fold emits no `message_delta`. -/
theorem filter_msgDelta_processToolCallDeltas :
    ∀ (tcs : List ToolCallDelta) (st : SState) (cid : String),
      (processToolCallDeltas st tcs cid).1.filter (·.isMessageDelta) = [] := by
  intro tcs
  induction tcs with
  | nil => intro st cid; rfl
  | cons tc rest ih =>
    intro st cid
    rw [show (processToolCallDeltas st (tc :: rest) cid).1 =
      (processToolCallDelta st tc cid).1 ++
        (processToolCallDeltas (processToolCallDelta st tc cid).2 rest cid).1 from rfl,
      List.filter_append, filter_msgDelta_processToolCallDelta, ih]
    rfl

/-- Closing the open tool calls emits only `content_block_stop` events. -/
theorem filter_msgDelta_completeToolCalls :
    ∀ (l : List (Nat × AccToolCall)) (adj : Nat),
      (completeToolCalls adj l).1.filter (·.isMessageDelta) = [] := by
  intro l
  induction l with
  | nil => intro adj; rfl
  | cons p rest ih =>
    intro adj
    obtain ⟨idx, acc⟩ := p
    rw [show (completeToolCalls adj ((idx, acc) :: rest)).1 =
      (if acc.hasStartedStreaming && !acc.isComplete
        then [Ev.content_block_stop (idx + adj)] else []) ++
        (completeToolCalls adj rest).1 from rfl,
      List.filter_append, ih]
    split <;> rfl

/-- The only `message_delta` of `handleCompletion` carries the
best-available usage: the authoritative value if recorded, else the
estimate alone. -/
theorem filter_msgDelta_handleCompletion (st : SState) (f : Option String) :
    (handleCompletion st f).1.filter (·.isMessageDelta) =
      [Ev.message_delta
        (if truthy f then translateFinishReason (f.getD "") else "end_turn")
        (st.actualUsage.getD ⟨st.estimatedInputTokens, 0⟩)] := by
  simp only [handleCompletion]
  rw [List.filter_append, List.filter_append, filter_msgDelta_completeToolCalls]
  split <;> rfl

/-- Membership in an if-then-else of lists implies membership in one arm. -/
theorem mem_ite_list {α : Type} {c : Prop} [Decidable c] {l1 l2 : List α} {a : α}
    (h : a ∈ (if c then l1 else l2)) : a ∈ l1 ∨ a ∈ l2 := by
  split at h
  · exact Or.inl h
  · exact Or.inr h

/-- Any `message_delta` among one chunk's events carries exactly the
best-available usage of the pre-chunk state — the authoritative value
recorded before this chunk if one arrived, else the estimate alone, never
a sum of the two. -/
theorem processChunk_messageDelta_usage (st : SState) (c : Chunk) (e : Ev)
    (he : e ∈ (processChunk st c).1) (hd : e.isMessageDelta = true) :
    e.messageDeltaUsage = st.actualUsage.getD ⟨st.estimatedInputTokens, 0⟩ := by
  simp only [processChunk, List.mem_append] at he
  rcases he with ((he | he) | he) | he
  · rcases mem_ite_list he with he | he
    · rw [List.mem_singleton] at he
      subst he
      simp [Ev.isMessageDelta] at hd
    · exact absurd he (List.not_mem_nil e)
  · rcases mem_ite_list he with he | he
    · rw [List.mem_append] at he
      rcases he with he | he
      · rcases mem_ite_list he with he | he
        · rw [List.mem_singleton] at he
          subst he
          simp [Ev.isMessageDelta] at hd
        · exact absurd he (List.not_mem_nil e)
      · rw [List.mem_singleton] at he
        subst he
        simp [Ev.isMessageDelta] at hd
    · exact absurd he (List.not_mem_nil e)
  · exact absurd hd
      (List.filter_eq_nil_iff.mp (filter_msgDelta_processToolCallDeltas _ _ _) e he)
  · rcases mem_ite_list he with he | he
    · have hm := List.mem_filter.mpr ⟨he, hd⟩
      rw [filter_msgDelta_handleCompletion] at hm
      rw [List.mem_singleton] at hm
      subst hm
      show (processToolCallDeltas _ (c.tool_calls.getD []) c.id).2.actualUsage.getD
          ⟨(processToolCallDeltas _ (c.tool_calls.getD []) c.id).2.estimatedInputTokens, 0⟩ =
        st.actualUsage.getD ⟨st.estimatedInputTokens, 0⟩
      rw [processToolCallDeltas_actualUsage, processToolCallDeltas_estimatedInputTokens]
      split <;> split <;> rfl
    · exact absurd he (List.not_mem_nil e)

/-- A chunk that carries no usage field leaves the recorded authoritative
usage unchanged. -/
theorem processChunk_actualUsage_of_none (st : SState) (c : Chunk)
    (h : c.usage = none) :
    (processChunk st c).2.actualUsage = st.actualUsage := by
  by_cases h1 : (!st.hasEmittedMessageStart && truthy c.role) = true <;>
    by_cases h2 : truthy c.content = true <;>
      by_cases h3 : truthy c.finish_reason = true <;>
        simp [processChunk, h, h1, h2, h3, processToolCallDeltas_actualUsage,
          handleCompletion]

/-- C6 (amended): every `message_delta` the machine emits carries exactly
the best-available usage of the state it was emitted from — the recorded
authoritative value when one has arrived, else the estimate alone, never
their sum — and once an authoritative value has arrived, every later
`message_delta` of the session carries exactly that value, hence never a
smaller one.  (The claim as stated fails only for `message_start`, which
always carries the estimate; see the counterexample.) -/
theorem c6_usage_amended :
    (∀ (st : SState) (c : Chunk) (e : Ev),
      e ∈ (processChunk st c).1 → e.isMessageDelta = true →
      e.messageDeltaUsage = st.actualUsage.getD ⟨st.estimatedInputTokens, 0⟩) ∧
    (∀ (st : SState) (u : Usage) (chunks : List Chunk),
      st.actualUsage = some u → (∀ c ∈ chunks, c.usage = none) →
      ∀ e ∈ (runChunks st chunks).1, e.isMessageDelta = true →
        e.messageDeltaUsage = u ∧
          u.input_tokens ≤ e.messageDeltaUsage.input_tokens ∧
          u.output_tokens ≤ e.messageDeltaUsage.output_tokens) := by
  constructor
  · exact processChunk_messageDelta_usage
  · intro st u chunks
    induction chunks generalizing st with
    | nil =>
      intro hu hn e he hd
      simp [runChunks] at he
    | cons c rest ih =>
      intro hu hn e he hd
      rw [show (runChunks st (c :: rest)).1 =
        (processChunk st c).1 ++ (runChunks (processChunk st c).2 rest).1 from rfl,
        List.mem_append] at he
      rcases he with he | he
      · have h : e.messageDeltaUsage = u := by
          have h0 := processChunk_messageDelta_usage st c e he hd
          rw [hu] at h0
          exact h0
        refine ⟨h, ?_, ?_⟩ <;> rw [h]
      · have hu' : (processChunk st c).2.actualUsage = some u := by
          rw [processChunk_actualUsage_of_none st c (hn c (List.mem_cons_self c rest)), hu]
        exact ih _ hu' (fun c' h' => hn c' (List.mem_cons_of_mem c h')) e he hd

/-- C6 witness: with authoritative usage (7, 3) recorded, the final
message_delta of a later terminal chunk carries exactly (7, 3). -/
theorem c6_usage_amended_witness :
    (Ev.message_delta "end_turn" ⟨7, 3⟩).messageDeltaUsage = (⟨7, 3⟩ : Usage) ∧
      (Usage.mk 7 3).input_tokens ≤
        (Ev.message_delta "end_turn" (⟨7, 3⟩ : Usage)).messageDeltaUsage.input_tokens ∧
      (Usage.mk 7 3).output_tokens ≤
        (Ev.message_delta "end_turn" (⟨7, 3⟩ : Usage)).messageDeltaUsage.output_tokens :=
  c6_usage_amended.2 (processChunk (SState.init "m" 10) (usageChunk "u" 7 3)).2 ⟨7, 3⟩
    [finishChunk "f" "stop"] rfl (by decide) (Ev.message_delta "end_turn" ⟨7, 3⟩)
    (by decide) rfl

/-- The tool-result indices found by the batcher are exactly as many as
the tool-role messages. -/
theorem toolIndicesFrom_length :
    ∀ (msgs : List OutMsg) (i : Nat),
      (toolIndicesFrom i msgs).length =
        (msgs.filter fun m => decide (m.role = "tool")).length := by
  intro msgs
  induction msgs with
  | nil => intro i; rfl
  | cons m rest ih =>
    intro i
    by_cases h : m.role = "tool" <;> simp [toolIndicesFrom, h, ih]

/-- Every found tool-result index is at least the running offset. -/
theorem toolIndicesFrom_ge :
    ∀ (msgs : List OutMsg) (i ti : Nat), ti ∈ toolIndicesFrom i msgs → i ≤ ti := by
  intro msgs
  induction msgs with
  | nil =>
    intro i ti h
    simp [toolIndicesFrom] at h
  | cons m rest ih =>
    intro i ti h
    by_cases hr : m.role = "tool"
    · simp only [toolIndicesFrom, if_pos hr, List.mem_cons] at h
      rcases h with h | h
      · omega
      · have := ih (i + 1) ti h
        omega
    · simp only [toolIndicesFrom, if_neg hr] at h
      have := ih (i + 1) ti h
      omega

/-- A kept-tool filter aimed below the running offset keeps no tool
message at all. -/
theorem filterKeepTool_tools_lt :
    ∀ (msgs : List OutMsg) (i ti : Nat), ti < i →
      (filterKeepTool i ti msgs).filter (fun m => decide (m.role = "tool")) = [] := by
  intro msgs
  induction msgs with
  | nil => intro i ti h; rfl
  | cons m rest ih =>
    intro i ti h
    by_cases hr : m.role = "tool"
    · have hne : ¬i = ti := by omega
      simp [filterKeepTool, hr, hne, List.filter_append, ih (i + 1) ti (by omega)]
    · simp [filterKeepTool, hr, List.filter_append, ih (i + 1) ti (by omega)]

/-- The per-request filter keeps every non-tool message. -/
theorem filterKeepTool_nonTool :
    ∀ (msgs : List OutMsg) (i ti : Nat),
      (filterKeepTool i ti msgs).filter (fun m => !decide (m.role = "tool")) =
        msgs.filter (fun m => !decide (m.role = "tool")) := by
  intro msgs
  induction msgs with
  | nil => intro i ti; rfl
  | cons m rest ih =>
    intro i ti
    by_cases hr : m.role = "tool"
    · by_cases he : i = ti <;>
        simp [filterKeepTool, hr, he, List.filter_append, ih]
    · simp [filterKeepTool, hr, List.filter_append, ih]

/-- The k-th single-tool-result request keeps exactly the k-th tool
message of the original request. -/
theorem filterKeepTool_tool_single :
    ∀ (msgs : List OutMsg) (i : Nat),
      (toolIndicesFrom i msgs).map
          (fun ti => (filterKeepTool i ti msgs).filter fun m => decide (m.role = "tool")) =
        (msgs.filter fun m => decide (m.role = "tool")).map (fun m => [m]) := by
  intro msgs
  induction msgs with
  | nil => intro i; rfl
  | cons m rest ih =>
    intro i
    by_cases hr : m.role = "tool"
    · rw [show toolIndicesFrom i (m :: rest) = i :: toolIndicesFrom (i + 1) rest from by
        simp [toolIndicesFrom, hr]]
      rw [show (m :: rest).filter (fun m => decide (m.role = "tool")) =
        m :: rest.filter (fun m => decide (m.role = "tool")) from by
        simp [List.filter_cons, hr]]
      rw [List.map_cons, List.map_cons]
      congr 1
      · simp [filterKeepTool, hr, List.filter_append, List.filter_cons,
          filterKeepTool_tools_lt rest (i + 1) i (by omega)]
      · have hcongr : ∀ ti ∈ toolIndicesFrom (i + 1) rest,
            (filterKeepTool i ti (m :: rest)).filter (fun m => decide (m.role = "tool")) =
              (filterKeepTool (i + 1) ti rest).filter
                (fun m => decide (m.role = "tool")) := by
          intro ti hti
          have hge := toolIndicesFrom_ge rest (i + 1) ti hti
          have hne : ¬i = ti := by omega
          simp [filterKeepTool, hr, hne, List.filter_append]
        rw [List.map_congr_left hcongr, ih (i + 1)]
    · rw [show toolIndicesFrom i (m :: rest) = toolIndicesFrom (i + 1) rest from by
        simp [toolIndicesFrom, hr]]
      rw [show (m :: rest).filter (fun m => decide (m.role = "tool")) =
        rest.filter (fun m => decide (m.role = "tool")) from by
        simp [List.filter_cons, hr]]
      have hcongr : ∀ ti ∈ toolIndicesFrom (i + 1) rest,
          (filterKeepTool i ti (m :: rest)).filter (fun m => decide (m.role = "tool")) =
            (filterKeepTool (i + 1) ti rest).filter
              (fun m => decide (m.role = "tool")) := by
        intro ti hti
        simp [filterKeepTool, hr, List.filter_append, List.filter_cons]
      rw [List.map_congr_left hcongr, ih (i + 1)]

/-- Summed batch usage equals the element-wise sums over the responses. -/
theorem sumResponsesUsage_eq (responses : List Resp) :
    sumResponsesUsage responses =
      ((responses.map fun r => (r.usage.map fun u => u.prompt_tokens.getD 0).getD 0).sum,
        (responses.map fun r => (r.usage.map fun u => u.completion_tokens.getD 0).getD 0).sum,
        (responses.map fun r => (r.usage.map fun u => u.total_tokens.getD 0).getD 0).sum) := by
  have key : ∀ (rs : List Resp) (a b c : Nat),
      rs.foldl
        (fun acc r =>
          match r.usage with
          | none => acc
          | some u =>
            (acc.1 + u.prompt_tokens.getD 0, acc.2.1 + u.completion_tokens.getD 0,
              acc.2.2 + u.total_tokens.getD 0))
        (a, b, c) =
      (a + (rs.map fun r => (r.usage.map fun u => u.prompt_tokens.getD 0).getD 0).sum,
        b + (rs.map fun r => (r.usage.map fun u => u.completion_tokens.getD 0).getD 0).sum,
        c + (rs.map fun r => (r.usage.map fun u => u.total_tokens.getD 0).getD 0).sum) := by
    intro rs
    induction rs with
    | nil => intro a b c; simp
    | cons r rest ih =>
      intro a b c
      cases hu : r.usage with
      | none => simp [List.foldl_cons, hu, ih]
      | some u => simp [List.foldl_cons, hu, ih, Nat.add_assoc]
  have h0 := key responses 0 0 0
  simpa [sumResponsesUsage] using h0

/-- The streaming batcher's per-chunk translation never emits the
terminal `message_stop`. -/
theorem countP_msgStop_processStreamChunk (buf : StreamBuf) (c : Chunk) (isFirst : Bool) :
    (processStreamChunk buf c isFirst).1.countP Ev.isMessageStop = 0 := by
  rw [List.countP_eq_zero]
  intro e he
  simp only [processStreamChunk, List.mem_append] at he
  rcases he with (he | he) | he
  · rcases mem_ite_list he with he | he
    · rw [List.mem_singleton] at he
      subst he
      simp [Ev.isMessageStop]
    · exact absurd he (List.not_mem_nil e)
  · rcases mem_ite_list he with he | he
    · rw [List.mem_singleton] at he
      subst he
      simp [Ev.isMessageStop]
    · exact absurd he (List.not_mem_nil e)
  · rw [List.mem_flatMap] at he
    obtain ⟨tc, _, he⟩ := he
    rcases mem_ite_list he with he | he
    · rw [List.mem_singleton] at he
      subst he
      simp [Ev.isMessageStop]
    · rcases mem_ite_list he with he | he
      · rw [List.mem_singleton] at he
        subst he
        simp [Ev.isMessageStop]
      · exact absurd he (List.not_mem_nil e)

/-- One whole partial stream emits no `message_stop`. -/
theorem countP_msgStop_goChunks :
    ∀ (chunks : List Chunk) (buf : StreamBuf) (isFirst : Bool),
      (goChunks buf chunks isFirst).1.countP Ev.isMessageStop = 0 := by
  intro chunks
  induction chunks with
  | nil => intro buf isFirst; rfl
  | cons c rest ih =>
    intro buf isFirst
    rw [show (goChunks buf (c :: rest) isFirst).1 =
      (processStreamChunk buf c isFirst).1 ++
        (goChunks (processStreamChunk buf c isFirst).2 rest isFirst).1 from rfl,
      List.countP_append, countP_msgStop_processStreamChunk, ih]

/-- The sequential stream loop emits no `message_stop` before the final
events. -/
theorem countP_msgStop_goStreams :
    ∀ (streams : List (List Chunk)) (buf : StreamBuf) (isFirst : Bool),
      (goStreams buf isFirst streams).1.countP Ev.isMessageStop = 0 := by
  intro streams
  induction streams with
  | nil => intro buf isFirst; rfl
  | cons s rest ih =>
    intro buf isFirst
    rw [show (goStreams buf isFirst (s :: rest)).1 =
      (processIndividualStream buf s isFirst).1 ++
        (goStreams (processIndividualStream buf s isFirst).2 false rest).1 from rfl,
      List.countP_append, ih]
    simp [processIndividualStream, countP_msgStop_goChunks]

/-- The final aggregated events contain exactly one `message_stop`. -/
theorem countP_msgStop_generateFinalEvents (buf : StreamBuf) :
    (generateFinalEvents buf).countP Ev.isMessageStop = 1 := by
  simp only [generateFinalEvents]
  rw [List.countP_append]
  split <;> rfl

/-- C3: against an intolerant model, a request with more than one
tool-result message is split into exactly one upstream request per tool
result, each keeping every non-tool message, every other request
parameter, and exactly the matching single tool-result message; the
combined non-streaming response takes its content from the last response
with usage summed element-wise over all responses; and the streaming
variant emits exactly one terminal `message_stop` for the whole batch. -/
theorem c3_tool_result_batching (shouldBatch : Bool) (request : OReq)
    (hs : shouldBatch = true)
    (hn : 1 < (request.messages.filter fun m => decide (m.role = "tool")).length) :
    needsBatching shouldBatch request = true ∧
    (createSingleToolResultRequests request).length =
      (request.messages.filter fun m => decide (m.role = "tool")).length ∧
    (∀ r ∈ createSingleToolResultRequests request,
      (r.messages.filter fun m => !decide (m.role = "tool")) =
        (request.messages.filter fun m => !decide (m.role = "tool")) ∧
      { r with messages := [] } = { request with messages := [] }) ∧
    ((createSingleToolResultRequests request).map fun r =>
        r.messages.filter fun m => decide (m.role = "tool")) =
      (request.messages.filter fun m => decide (m.role = "tool")).map (fun m => [m]) ∧
    (∀ responses : List Resp, 1 < responses.length →
      ∃ combined, combineSingleToolResponses responses = some combined ∧
        combined.choicesContent = (responses.getLast?.getD ⟨"", none⟩).choicesContent ∧
        combined.usage = some
          ⟨some (responses.map fun r =>
              (r.usage.map fun u => u.prompt_tokens.getD 0).getD 0).sum,
            some (responses.map fun r =>
              (r.usage.map fun u => u.completion_tokens.getD 0).getD 0).sum,
            some (responses.map fun r =>
              (r.usage.map fun u => u.total_tokens.getD 0).getD 0).sum⟩) ∧
    (∀ streams : List (List Chunk),
      (processSequentialStreams streams).countP Ev.isMessageStop = 1) := by
  subst hs
  have hidx := toolIndicesFrom_length request.messages 0
  have hgt : ¬(toolIndicesFrom 0 request.messages).length ≤ 1 := by omega
  refine ⟨?_, ?_, ?_, ?_, ?_, ?_⟩
  · simp [needsBatching, hn]
  · rw [createSingleToolResultRequests, if_neg hgt, List.length_map]
    exact hidx
  · intro r hr
    rw [createSingleToolResultRequests, if_neg hgt, List.mem_map] at hr
    obtain ⟨ti, _, hr⟩ := hr
    subst hr
    exact ⟨filterKeepTool_nonTool request.messages 0 ti, rfl⟩
  · rw [createSingleToolResultRequests, if_neg hgt, List.map_map]
    exact filterKeepTool_tool_single request.messages 0
  · intro responses hlen
    match responses, hlen with
    | r1 :: r2 :: rest, _ =>
      refine ⟨_, rfl, rfl, ?_⟩
      show some (RespUsage.mk
          (some (sumResponsesUsage (r1 :: r2 :: rest)).1)
          (some (sumResponsesUsage (r1 :: r2 :: rest)).2.1)
          (some (sumResponsesUsage (r1 :: r2 :: rest)).2.2)) = _
      rw [sumResponsesUsage_eq]
  · intro streams
    simp only [processSequentialStreams]
    rw [List.countP_append, countP_msgStop_goStreams,
      countP_msgStop_generateFinalEvents]

/-- C3 witness: a three-tool-result request splits into three requests,
and a three-stream batch closes with a single `message_stop`. -/
theorem c3_tool_result_batching_witness :
    needsBatching true batchDemoRequest = true ∧
      (createSingleToolResultRequests batchDemoRequest).length = 3 ∧
      (processSequentialStreams
          [[roleChunk "a"], [textChunk "b" "x"], [finishChunk "c" "stop"]]).countP
        Ev.isMessageStop = 1 := by
  obtain ⟨h1, h2, _, _, _, h6⟩ :=
    c3_tool_result_batching true batchDemoRequest rfl (by decide)
  refine ⟨h1, ?_, h6 _⟩
  rw [h2]
  rfl

end Nootropic
